import Mathlib

/-!
Verification development for the Kubernetes CBOR object serializer
(`k8s.io/apimachinery/pkg/runtime/serializer/cbor` and the polymorphic JSON
schema union codecs).

The Go sources are shallowly embedded:

* the group/version/kind triple and `gvkWithDefaults` (cbor.go);
* the decode mode configuration (internal/modes/decode.go);
* an item-level model of the third-party CBOR codec configured by those modes
  (the codec library itself is out of scope of the spec and of the repository;
  its behaviour is modelled from the spec's mode-configuration contract);
* the serializer (`Encode`, `Decode`, `unmarshal`, `RecognizesData`) and the
  default meta-factory (cbor.go);
* the four polymorphic union codecs (`JSONSchemaPropsOrBool`,
  `JSONSchemaPropsOrStringArray`, `JSONSchemaPropsOrArray`, `JSON`) with
  their JSON and CBOR marshal/unmarshal rules (marshal_cbor source file).

Machine integers: all integers that appear on the wire are within signed
64-bit range; the embedding uses `Int` with explicit range checks where the
code enforces them (integer overflow rejection on decode).
-/

deriving instance DecidableEq for Except

/-! ## Group/version/kind -/

/-- schema.GroupVersionKind: a triple of strings; empty strings mean unset. -/
structure GroupVersionKind where
  group : String
  version : String
  kind : String
deriving DecidableEq, Repr

instance : Inhabited GroupVersionKind := ⟨⟨"", "", ""⟩⟩

/-- gvkWithDefaults (cbor.go): fills empty fields of `actual` from
`defaultGVK`, mirroring the three sequential conditional assignments of the
source. -/
def gvkWithDefaults (actual defaultGVK : GroupVersionKind) : GroupVersionKind :=
  let a1 := if actual.kind = "" then { actual with kind := defaultGVK.kind } else actual
  let a2 := if a1.version = "" ∧ a1.group = "" then
      { a1 with group := defaultGVK.group, version := defaultGVK.version } else a1
  if a2.version = "" ∧ a2.group = defaultGVK.group then
    { a2 with version := defaultGVK.version } else a2

/-- Modelled from the spec: `schema.FromAPIVersionAndKind` (used by
`TypeMeta.GetObjectKind().GroupVersionKind()` and by the unstructured object's
kind accessor; the schema package is not under src/). An apiVersion with no
slash is a bare version, one slash separates group and version, anything else
fails to parse and yields a GVK carrying only the kind. -/
def splitSlashAux : List Char → List Char → List String
  | [], acc => [String.mk acc.reverse]
  | c :: rest, acc =>
      if c = '/' then String.mk acc.reverse :: splitSlashAux rest []
      else splitSlashAux rest (c :: acc)

/-- Splitting a string on the slash separator (`strings.Split(s, "/")`). -/
def splitSlash (s : String) : List String :=
  splitSlashAux s.data []

def fromAPIVersionAndKind (apiVersion kind : String) : GroupVersionKind :=
  match splitSlash apiVersion with
  | [v] => ⟨"", v, kind⟩
  | [g, v] => ⟨g, v, kind⟩
  | _ => ⟨"", "", kind⟩

/-! ## CBOR data items

An item-level model of RFC 8949 CBOR data items, the abstraction of the wire
bytes after the third-party codec's well-formedness parse. A byte sequence is
represented in decode contexts by `Option CborItem`: `none` stands for bytes
that are not a single well-formed data item (truncated, trailing garbage, or
empty input). Text strings and byte strings are collapsed into one string
constructor: the encoder always emits the byte-string major type for strings
and the decoder accepts both into Go strings, so the two major types are
indistinguishable at this level. Floating-point items carry their IEEE 754
binary64 bit pattern. Tags are not modelled (unrecognized tags are skipped by
the decoder and never emitted by the encoder). -/
inductive CborItem where
  | int (n : Int)
  | str (s : String)
  | array (xs : List CborItem)
  | map (kvs : List (CborItem × CborItem))
  | bool (b : Bool)
  | null
  | float (bits : Nat)
deriving Repr

mutual

def CborItem.beq : CborItem → CborItem → Bool
  | .int a, .int b => a == b
  | .str a, .str b => a == b
  | .array a, .array b => CborItem.beqList a b
  | .map a, .map b => CborItem.beqPairs a b
  | .bool a, .bool b => a == b
  | .null, .null => true
  | .float a, .float b => a == b
  | _, _ => false

def CborItem.beqList : List CborItem → List CborItem → Bool
  | [], [] => true
  | x :: xs, y :: ys => CborItem.beq x y && CborItem.beqList xs ys
  | _, _ => false

def CborItem.beqPairs : List (CborItem × CborItem) → List (CborItem × CborItem) → Bool
  | [], [] => true
  | (k1, v1) :: xs, (k2, v2) :: ys =>
      CborItem.beq k1 k2 && CborItem.beq v1 v2 && CborItem.beqPairs xs ys
  | _, _ => false

end

mutual

theorem CborItem.beqItem_iff : ∀ a b : CborItem, CborItem.beq a b = true ↔ a = b
  | .int a, .int b => by simp [CborItem.beq]
  | .str a, .str b => by simp [CborItem.beq]
  | .array a, .array b => by
      simp only [CborItem.beq, CborItem.beqItemList_iff a b, CborItem.array.injEq]
  | .map a, .map b => by
      simp only [CborItem.beq, CborItem.beqItemPairs_iff a b, CborItem.map.injEq]
  | .bool a, .bool b => by simp [CborItem.beq]
  | .null, .null => by simp [CborItem.beq]
  | .float a, .float b => by simp [CborItem.beq]
  | .int _ , .str _ => by simp [CborItem.beq]
  | .int _ , .array _ => by simp [CborItem.beq]
  | .int _ , .map _ => by simp [CborItem.beq]
  | .int _ , .bool _ => by simp [CborItem.beq]
  | .int _ , .null => by simp [CborItem.beq]
  | .int _ , .float _ => by simp [CborItem.beq]
  | .str _ , .int _ => by simp [CborItem.beq]
  | .str _ , .array _ => by simp [CborItem.beq]
  | .str _ , .map _ => by simp [CborItem.beq]
  | .str _ , .bool _ => by simp [CborItem.beq]
  | .str _ , .null => by simp [CborItem.beq]
  | .str _ , .float _ => by simp [CborItem.beq]
  | .array _ , .int _ => by simp [CborItem.beq]
  | .array _ , .str _ => by simp [CborItem.beq]
  | .array _ , .map _ => by simp [CborItem.beq]
  | .array _ , .bool _ => by simp [CborItem.beq]
  | .array _ , .null => by simp [CborItem.beq]
  | .array _ , .float _ => by simp [CborItem.beq]
  | .map _ , .int _ => by simp [CborItem.beq]
  | .map _ , .str _ => by simp [CborItem.beq]
  | .map _ , .array _ => by simp [CborItem.beq]
  | .map _ , .bool _ => by simp [CborItem.beq]
  | .map _ , .null => by simp [CborItem.beq]
  | .map _ , .float _ => by simp [CborItem.beq]
  | .bool _ , .int _ => by simp [CborItem.beq]
  | .bool _ , .str _ => by simp [CborItem.beq]
  | .bool _ , .array _ => by simp [CborItem.beq]
  | .bool _ , .map _ => by simp [CborItem.beq]
  | .bool _ , .null => by simp [CborItem.beq]
  | .bool _ , .float _ => by simp [CborItem.beq]
  | .null, .int _ => by simp [CborItem.beq]
  | .null, .str _ => by simp [CborItem.beq]
  | .null, .array _ => by simp [CborItem.beq]
  | .null, .map _ => by simp [CborItem.beq]
  | .null, .bool _ => by simp [CborItem.beq]
  | .null, .float _ => by simp [CborItem.beq]
  | .float _ , .int _ => by simp [CborItem.beq]
  | .float _ , .str _ => by simp [CborItem.beq]
  | .float _ , .array _ => by simp [CborItem.beq]
  | .float _ , .map _ => by simp [CborItem.beq]
  | .float _ , .bool _ => by simp [CborItem.beq]
  | .float _ , .null => by simp [CborItem.beq]

theorem CborItem.beqItemList_iff : ∀ a b : List CborItem, CborItem.beqList a b = true ↔ a = b
  | [], [] => by simp [CborItem.beqList]
  | [], _ :: _ => by simp [CborItem.beqList]
  | _ :: _, [] => by simp [CborItem.beqList]
  | x :: xs, y :: ys => by
      simp only [CborItem.beqList, Bool.and_eq_true, CborItem.beqItem_iff x y,
        CborItem.beqItemList_iff xs ys, List.cons.injEq]

theorem CborItem.beqItemPairs_iff :
    ∀ a b : List (CborItem × CborItem), CborItem.beqPairs a b = true ↔ a = b
  | [], [] => by simp [CborItem.beqPairs]
  | [], _ :: _ => by simp [CborItem.beqPairs]
  | _ :: _, [] => by simp [CborItem.beqPairs]
  | (k1, v1) :: xs, (k2, v2) :: ys => by
      simp only [CborItem.beqPairs, Bool.and_eq_true, CborItem.beqItem_iff k1 k2,
        CborItem.beqItem_iff v1 v2, CborItem.beqItemPairs_iff xs ys, List.cons.injEq,
        Prod.mk.injEq, and_assoc]

end

instance : DecidableEq CborItem := fun a b =>
  decidable_of_iff (CborItem.beq a b = true) (CborItem.beqItem_iff a b)

/-! ## Decoded (untyped) values and destination types

`Value` models the universe of decoded Go values: the untyped
`interface{}` results (strings, signed 64-bit integers, booleans, nil,
floats, `[]interface{}`, `map[string]interface{}`) as well as the values held
by struct destinations (represented as the association list of their fields).
It doubles as the model of JSON documents for the polymorphic union codecs
(`obj` entries keep their textual order; Go maps are unordered, which is
accounted for by canonicalizing before comparison). -/
inductive Value where
  | int (n : Int)
  | str (s : String)
  | bool (b : Bool)
  | null
  | float (bits : Nat)
  | arr (xs : List Value)
  | obj (kvs : List (String × Value))
deriving Repr

mutual

def Value.beq : Value → Value → Bool
  | .int a, .int b => a == b
  | .str a, .str b => a == b
  | .bool a, .bool b => a == b
  | .null, .null => true
  | .float a, .float b => a == b
  | .arr a, .arr b => Value.beqList a b
  | .obj a, .obj b => Value.beqPairs a b
  | _, _ => false

def Value.beqList : List Value → List Value → Bool
  | [], [] => true
  | x :: xs, y :: ys => Value.beq x y && Value.beqList xs ys
  | _, _ => false

def Value.beqPairs : List (String × Value) → List (String × Value) → Bool
  | [], [] => true
  | (k1, v1) :: xs, (k2, v2) :: ys =>
      k1 == k2 && Value.beq v1 v2 && Value.beqPairs xs ys
  | _, _ => false

end

mutual

theorem Value.beqVal_iff : ∀ a b : Value, Value.beq a b = true ↔ a = b
  | .int a, .int b => by simp [Value.beq]
  | .str a, .str b => by simp [Value.beq]
  | .bool a, .bool b => by simp [Value.beq]
  | .null, .null => by simp [Value.beq]
  | .float a, .float b => by simp [Value.beq]
  | .arr a, .arr b => by
      simp only [Value.beq, Value.beqValList_iff a b, Value.arr.injEq]
  | .obj a, .obj b => by
      simp only [Value.beq, Value.beqValPairs_iff a b, Value.obj.injEq]
  | .int _ , .str _ => by simp [Value.beq]
  | .int _ , .bool _ => by simp [Value.beq]
  | .int _ , .null => by simp [Value.beq]
  | .int _ , .float _ => by simp [Value.beq]
  | .int _ , .arr _ => by simp [Value.beq]
  | .int _ , .obj _ => by simp [Value.beq]
  | .str _ , .int _ => by simp [Value.beq]
  | .str _ , .bool _ => by simp [Value.beq]
  | .str _ , .null => by simp [Value.beq]
  | .str _ , .float _ => by simp [Value.beq]
  | .str _ , .arr _ => by simp [Value.beq]
  | .str _ , .obj _ => by simp [Value.beq]
  | .bool _ , .int _ => by simp [Value.beq]
  | .bool _ , .str _ => by simp [Value.beq]
  | .bool _ , .null => by simp [Value.beq]
  | .bool _ , .float _ => by simp [Value.beq]
  | .bool _ , .arr _ => by simp [Value.beq]
  | .bool _ , .obj _ => by simp [Value.beq]
  | .null, .int _ => by simp [Value.beq]
  | .null, .str _ => by simp [Value.beq]
  | .null, .bool _ => by simp [Value.beq]
  | .null, .float _ => by simp [Value.beq]
  | .null, .arr _ => by simp [Value.beq]
  | .null, .obj _ => by simp [Value.beq]
  | .float _ , .int _ => by simp [Value.beq]
  | .float _ , .str _ => by simp [Value.beq]
  | .float _ , .bool _ => by simp [Value.beq]
  | .float _ , .null => by simp [Value.beq]
  | .float _ , .arr _ => by simp [Value.beq]
  | .float _ , .obj _ => by simp [Value.beq]
  | .arr _ , .int _ => by simp [Value.beq]
  | .arr _ , .str _ => by simp [Value.beq]
  | .arr _ , .bool _ => by simp [Value.beq]
  | .arr _ , .null => by simp [Value.beq]
  | .arr _ , .float _ => by simp [Value.beq]
  | .arr _ , .obj _ => by simp [Value.beq]
  | .obj _ , .int _ => by simp [Value.beq]
  | .obj _ , .str _ => by simp [Value.beq]
  | .obj _ , .bool _ => by simp [Value.beq]
  | .obj _ , .null => by simp [Value.beq]
  | .obj _ , .float _ => by simp [Value.beq]
  | .obj _ , .arr _ => by simp [Value.beq]

theorem Value.beqValList_iff : ∀ a b : List Value, Value.beqList a b = true ↔ a = b
  | [], [] => by simp [Value.beqList]
  | [], _ :: _ => by simp [Value.beqList]
  | _ :: _, [] => by simp [Value.beqList]
  | x :: xs, y :: ys => by
      simp only [Value.beqList, Bool.and_eq_true, Value.beqVal_iff x y,
        Value.beqValList_iff xs ys, List.cons.injEq]

theorem Value.beqValPairs_iff :
    ∀ a b : List (String × Value), Value.beqPairs a b = true ↔ a = b
  | [], [] => by simp [Value.beqPairs]
  | [], _ :: _ => by simp [Value.beqPairs]
  | _ :: _, [] => by simp [Value.beqPairs]
  | (k1, v1) :: xs, (k2, v2) :: ys => by
      simp only [Value.beqPairs, Bool.and_eq_true, beq_iff_eq, Value.beqVal_iff v1 v2,
        Value.beqValPairs_iff xs ys, List.cons.injEq, Prod.mk.injEq, and_assoc]

end

instance : DecidableEq Value := fun a b =>
  decidable_of_iff (Value.beq a b = true) (Value.beqVal_iff a b)

/-- Destination types for decoding: the reflective universe of Go destination
values that the serializer and the union codecs decode into. `structTy` lists
the destination struct's fields (serialized name and field type) in
declaration order; `mapTy t` is `map[string]t`; `anyTy` is `interface{}`. -/
inductive DestTy where
  | anyTy
  | stringTy
  | intTy
  | boolTy
  | structTy (fields : List (String × DestTy))
  | mapTy (vt : DestTy)
  | arrTy (t : DestTy)
deriving Repr

mutual

def DestTy.beq : DestTy → DestTy → Bool
  | .anyTy, .anyTy => true
  | .stringTy, .stringTy => true
  | .intTy, .intTy => true
  | .boolTy, .boolTy => true
  | .structTy a, .structTy b => DestTy.beqFields a b
  | .mapTy a, .mapTy b => DestTy.beq a b
  | .arrTy a, .arrTy b => DestTy.beq a b
  | _, _ => false

def DestTy.beqFields : List (String × DestTy) → List (String × DestTy) → Bool
  | [], [] => true
  | (k1, v1) :: xs, (k2, v2) :: ys =>
      k1 == k2 && DestTy.beq v1 v2 && DestTy.beqFields xs ys
  | _, _ => false

end

mutual

theorem DestTy.beqTy_iff : ∀ a b : DestTy, DestTy.beq a b = true ↔ a = b
  | .anyTy, .anyTy => by simp [DestTy.beq]
  | .stringTy, .stringTy => by simp [DestTy.beq]
  | .intTy, .intTy => by simp [DestTy.beq]
  | .boolTy, .boolTy => by simp [DestTy.beq]
  | .structTy a, .structTy b => by
      simp only [DestTy.beq, DestTy.beqTyFields_iff a b, DestTy.structTy.injEq]
  | .mapTy a, .mapTy b => by
      simp only [DestTy.beq, DestTy.beqTy_iff a b, DestTy.mapTy.injEq]
  | .arrTy a, .arrTy b => by
      simp only [DestTy.beq, DestTy.beqTy_iff a b, DestTy.arrTy.injEq]
  | .anyTy, .stringTy => by simp [DestTy.beq]
  | .anyTy, .intTy => by simp [DestTy.beq]
  | .anyTy, .boolTy => by simp [DestTy.beq]
  | .anyTy, .structTy _ => by simp [DestTy.beq]
  | .anyTy, .mapTy _ => by simp [DestTy.beq]
  | .anyTy, .arrTy _ => by simp [DestTy.beq]
  | .stringTy, .anyTy => by simp [DestTy.beq]
  | .stringTy, .intTy => by simp [DestTy.beq]
  | .stringTy, .boolTy => by simp [DestTy.beq]
  | .stringTy, .structTy _ => by simp [DestTy.beq]
  | .stringTy, .mapTy _ => by simp [DestTy.beq]
  | .stringTy, .arrTy _ => by simp [DestTy.beq]
  | .intTy, .anyTy => by simp [DestTy.beq]
  | .intTy, .stringTy => by simp [DestTy.beq]
  | .intTy, .boolTy => by simp [DestTy.beq]
  | .intTy, .structTy _ => by simp [DestTy.beq]
  | .intTy, .mapTy _ => by simp [DestTy.beq]
  | .intTy, .arrTy _ => by simp [DestTy.beq]
  | .boolTy, .anyTy => by simp [DestTy.beq]
  | .boolTy, .stringTy => by simp [DestTy.beq]
  | .boolTy, .intTy => by simp [DestTy.beq]
  | .boolTy, .structTy _ => by simp [DestTy.beq]
  | .boolTy, .mapTy _ => by simp [DestTy.beq]
  | .boolTy, .arrTy _ => by simp [DestTy.beq]
  | .structTy _ , .anyTy => by simp [DestTy.beq]
  | .structTy _ , .stringTy => by simp [DestTy.beq]
  | .structTy _ , .intTy => by simp [DestTy.beq]
  | .structTy _ , .boolTy => by simp [DestTy.beq]
  | .structTy _ , .mapTy _ => by simp [DestTy.beq]
  | .structTy _ , .arrTy _ => by simp [DestTy.beq]
  | .mapTy _ , .anyTy => by simp [DestTy.beq]
  | .mapTy _ , .stringTy => by simp [DestTy.beq]
  | .mapTy _ , .intTy => by simp [DestTy.beq]
  | .mapTy _ , .boolTy => by simp [DestTy.beq]
  | .mapTy _ , .structTy _ => by simp [DestTy.beq]
  | .mapTy _ , .arrTy _ => by simp [DestTy.beq]
  | .arrTy _ , .anyTy => by simp [DestTy.beq]
  | .arrTy _ , .stringTy => by simp [DestTy.beq]
  | .arrTy _ , .intTy => by simp [DestTy.beq]
  | .arrTy _ , .boolTy => by simp [DestTy.beq]
  | .arrTy _ , .structTy _ => by simp [DestTy.beq]
  | .arrTy _ , .mapTy _ => by simp [DestTy.beq]

theorem DestTy.beqTyFields_iff :
    ∀ a b : List (String × DestTy), DestTy.beqFields a b = true ↔ a = b
  | [], [] => by simp [DestTy.beqFields]
  | [], _ :: _ => by simp [DestTy.beqFields]
  | _ :: _, [] => by simp [DestTy.beqFields]
  | (k1, v1) :: xs, (k2, v2) :: ys => by
      simp only [DestTy.beqFields, Bool.and_eq_true, beq_iff_eq, DestTy.beqTy_iff v1 v2,
        DestTy.beqTyFields_iff xs ys, List.cons.injEq, Prod.mk.injEq, and_assoc]

end

instance : DecidableEq DestTy := fun a b =>
  decidable_of_iff (DestTy.beq a b = true) (DestTy.beqTy_iff a b)

/-! ## Decode mode configuration (internal/modes/decode.go) -/

/-- Decode errors surfaced by the modelled codec, matching the error classes
the serializer distinguishes: `malformed` covers inputs that are not a single
well-formed data item (including empty input); `dupMapKey` is the
DupMapKeyError from `DupMapKeyEnforcedAPF`; `unknownField idx` is
`cbor.UnknownFieldError` carrying the index of the first problematic map
entry; `typeMismatch` is `cbor.UnmarshalTypeError`; `intOverflow` is the
error from `IntDecConvertSigned` on integers outside signed 64-bit range. -/
inductive DecErr where
  | malformed
  | dupMapKey
  | unknownField (idx : Nat)
  | typeMismatch
  | intOverflow
deriving DecidableEq, Repr

namespace modes

/-- cbor.DecOptions restricted to the fields assigned in
internal/modes/decode.go. `extraDecErrorUnknownField` models the
`ExtraReturnErrors` bitmask, whose only flag used is
`ExtraDecErrorUnknownField`; `defaultMapTypeStringAny` models
`DefaultMapType = map[string]interface{}`. -/
structure DecOptions where
  dupMapKeyEnforcedAPF : Bool
  timeTagOptional : Bool
  maxNestedLevels : Nat
  maxArrayElements : Nat
  maxMapPairs : Nat
  indefLengthAllowed : Bool
  tagsAllowed : Bool
  intDecConvertSigned : Bool
  mapKeyByteStringForbidden : Bool
  extraDecErrorUnknownField : Bool
  defaultMapTypeStringAny : Bool
  utf8RejectInvalid : Bool
deriving DecidableEq, Repr

/-- The strict decode mode `modes.Decode` (decode.go lines 25-76). -/
def Decode : DecOptions :=
  { dupMapKeyEnforcedAPF := true
    timeTagOptional := true
    maxNestedLevels := 64
    maxArrayElements := 1024
    maxMapPairs := 1024
    indefLengthAllowed := true
    tagsAllowed := true
    intDecConvertSigned := true
    mapKeyByteStringForbidden := true
    extraDecErrorUnknownField := true
    defaultMapTypeStringAny := true
    utf8RejectInvalid := true }

/-- `modes.DecodeLax` (decode.go lines 78-88): derived from `Decode` by
clearing the unknown-field flag from `ExtraReturnErrors` and re-setting
`DefaultMapType` to `map[string]interface{}`. -/
def DecodeLax : DecOptions :=
  { Decode with
    extraDecErrorUnknownField := false
    defaultMapTypeStringAny := true }

end modes

/-- Signed 64-bit range check applied by `IntDecConvertSigned`: integers (of
either CBOR integer major type) outside the range are rejected. -/
def int64Range (n : Int) : Prop := -(2 ^ 63) ≤ n ∧ n < 2 ^ 63

instance (n : Int) : Decidable (int64Range n) := by
  unfold int64Range; infer_instance

/-- Field lookup by serialized field name in a struct destination. -/
def lookupField : List (String × DestTy) → String → Option DestTy
  | [], _ => none
  | (k, t) :: rest, s => if k = s then some t else lookupField rest s

/-- Replaces the value of field `s` in a struct value under construction. -/
def setField : List (String × Value) → String → Value → List (String × Value)
  | [], _, _ => []
  | (k, v) :: rest, s, nv => if k = s then (k, nv) :: rest else (k, v) :: setField rest s nv

mutual

/-- The zero Go value of a destination type (struct fields start at their
zero values; map and slice destinations start nil). -/
def zeroVal : DestTy → Value
  | .anyTy => .null
  | .stringTy => .str ""
  | .intTy => .int 0
  | .boolTy => .bool false
  | .structTy fs => .obj (zeroFields fs)
  | .mapTy _ => .null
  | .arrTy _ => .null

def zeroFields : List (String × DestTy) → List (String × Value)
  | [] => []
  | (k, t) :: rest => (k, zeroVal t) :: zeroFields rest

end

mutual

/-- Modelled from the spec: the item-level decode behaviour of the
third-party codec under the mode configuration of internal/modes/decode.go
(the codec itself is outside the repository; §4.1 of the spec states its
contract). Duplicate map keys are rejected outright; integers outside signed
64-bit are rejected; untyped maps decode to `map[string]interface{}` with
string keys required; a map key with no corresponding struct field is an
`UnknownFieldError` when the mode sets the unknown-field flag and is skipped
otherwise; CBOR null leaves scalar destinations at their zero value, decodes
map/slice destinations to nil, and does not decode into struct destinations
(the spec requires the meta-factory to fail on inputs that do not form a
map). Depth and size limit enforcement is not modelled: the limits are
identical in both modes and orthogonal to the claims. -/
def decodeVal (dm : modes.DecOptions) : CborItem → DestTy → Except DecErr Value
  | .int n, .anyTy => if int64Range n then .ok (.int n) else .error .intOverflow
  | .str s, .anyTy => .ok (.str s)
  | .bool b, .anyTy => .ok (.bool b)
  | .null, .anyTy => .ok .null
  | .float bits, .anyTy => .ok (.float bits)
  | .array xs, .anyTy => do
      let vs ← decodeList dm xs .anyTy
      .ok (.arr vs)
  | .map kvs, .anyTy => do
      let es ← decodeEntries dm kvs .anyTy []
      .ok (.obj es)
  | .str s, .stringTy => .ok (.str s)
  | .null, .stringTy => .ok (.str "")
  | _, .stringTy => .error .typeMismatch
  | .int n, .intTy => if int64Range n then .ok (.int n) else .error .intOverflow
  | .null, .intTy => .ok (.int 0)
  | _, .intTy => .error .typeMismatch
  | .bool b, .boolTy => .ok (.bool b)
  | .null, .boolTy => .ok (.bool false)
  | _, .boolTy => .error .typeMismatch
  | .map kvs, .structTy fields => do
      let fs ← decodeStruct dm kvs fields [] 0 (zeroFields fields)
      .ok (.obj fs)
  | _, .structTy _ => .error .typeMismatch
  | .map kvs, .mapTy vt => do
      let es ← decodeEntries dm kvs vt []
      .ok (.obj es)
  | .null, .mapTy _ => .ok .null
  | _, .mapTy _ => .error .typeMismatch
  | .array xs, .arrTy t => do
      let vs ← decodeList dm xs t
      .ok (.arr vs)
  | .null, .arrTy _ => .ok .null
  | _, .arrTy _ => .error .typeMismatch

/-- Decodes the elements of an array item into the element destination. -/
def decodeList (dm : modes.DecOptions) : List CborItem → DestTy → Except DecErr (List Value)
  | [], _ => .ok []
  | x :: xs, t => do
      let v ← decodeVal dm x t
      let vs ← decodeList dm xs t
      .ok (v :: vs)

/-- Decodes map entries into a map destination (`map[string]vt`): keys must
be strings, duplicate keys are rejected, entry order is preserved. -/
def decodeEntries (dm : modes.DecOptions) :
    List (CborItem × CborItem) → DestTy → List String → Except DecErr (List (String × Value))
  | [], _, _ => .ok []
  | (k, v) :: rest, vt, seen =>
      match k with
      | .str s =>
          if s ∈ seen then .error .dupMapKey
          else do
            let dv ← decodeVal dm v vt
            let ds ← decodeEntries dm rest vt (s :: seen)
            .ok ((s, dv) :: ds)
      | _ => .error .typeMismatch

/-- Decodes map entries into a struct destination: entries are processed in
order; a duplicate key fails the decode; a key matching a field decodes the
entry value into the field's type; a key with no corresponding field is an
unknown-field error (at the entry's index) when the mode requests it and is
skipped otherwise. -/
def decodeStruct (dm : modes.DecOptions) :
    List (CborItem × CborItem) → List (String × DestTy) → List CborItem → Nat →
      List (String × Value) → Except DecErr (List (String × Value))
  | [], _, _, _, acc => .ok acc
  | (k, v) :: rest, fields, seen, idx, acc =>
      if k ∈ seen then .error .dupMapKey
      else
        match k with
        | .str s =>
            match lookupField fields s with
            | some ft => do
                let fv ← decodeVal dm v ft
                decodeStruct dm rest fields (.str s :: seen) (idx + 1) (setField acc s fv)
            | none =>
                if dm.extraDecErrorUnknownField then .error (.unknownField idx)
                else decodeStruct dm rest fields (.str s :: seen) (idx + 1) acc
        | _ =>
            if dm.extraDecErrorUnknownField then .error (.unknownField idx)
            else decodeStruct dm rest fields (k :: seen) (idx + 1) acc

end

/-- DecMode.Unmarshal at the byte level: `none` models byte sequences that
are not a single well-formed data item (the decoder fails before reaching
the destination, e.g. with EOF on empty input). -/
def unmarshalWith (dm : modes.DecOptions) (data : Option CborItem) (t : DestTy) :
    Except DecErr Value :=
  match data with
  | none => .error .malformed
  | some item => decodeVal dm item t

/-! ## Canonical encoder (internal/modes encode configuration)

Modelled from the spec: the encode mode (the counterpart of
internal/modes/decode.go) is not under src/; §4.1 of the spec states its
contract, and the Appendix A fixtures in cbor_test.go pin the expected
canonical encodings (definite lengths, byte-string major type for strings,
map entries sorted by the canonical byte ordering of their encoded keys,
floats packed into the smallest value-preserving width, all NaNs encoded as
the half-precision quiet NaN f97e00). -/

/-- Big-endian encoding of `n` in exactly `k` bytes. -/
def beBytes (k : Nat) (n : Nat) : List Nat :=
  (List.range k).map fun i => n / 256 ^ (k - 1 - i) % 256

/-- The head of a definite-length data item: major type and argument encoded
in the shortest form (canonical). -/
def encodeHead (major : Nat) (n : Nat) : List Nat :=
  if n < 24 then [major * 32 + n]
  else if n < 256 then [major * 32 + 24, n]
  else if n < 65536 then (major * 32 + 25) :: beBytes 2 n
  else if n < 4294967296 then (major * 32 + 26) :: beBytes 4 n
  else (major * 32 + 27) :: beBytes 8 n

/-- An IEEE 754 binary64 bit pattern is a NaN: exponent all ones with a
non-zero significand. -/
def isNaN64 (bits : Nat) : Bool :=
  (bits >>> 52) % 2048 = 2047 && bits % 2 ^ 52 ≠ 0

/-- The binary16 bit pattern whose value equals that of the given binary64
bit pattern exactly, when one exists (covering zeroes, infinities, normal
values in half range with at most 10 significand bits, and half-subnormal
values). NaN patterns are handled separately by the encoder. -/
def doubleToHalf (bits : Nat) : Option Nat :=
  let s := (bits >>> 63) % 2
  let e := (bits >>> 52) % 2048
  let m := bits % 2 ^ 52
  if e = 2047 then
    if m = 0 then some (s * 2 ^ 15 + 0x7c00) else none
  else if e = 0 then
    if m = 0 then some (s * 2 ^ 15) else none
  else
    let E : Int := (e : Int) - 1023
    if -14 ≤ E ∧ E ≤ 15 then
      if m % 2 ^ 42 = 0 then some (s * 2 ^ 15 + (E + 15).toNat * 2 ^ 10 + m / 2 ^ 42)
      else none
    else if -24 ≤ E ∧ E < -14 then
      let sh : Nat := (28 - E).toNat
      let sig := 2 ^ 52 + m
      if sig % 2 ^ sh = 0 then some (s * 2 ^ 15 + sig / 2 ^ sh) else none
    else none

/-- The binary32 bit pattern whose value equals that of the given binary64
bit pattern exactly, when one exists. -/
def doubleToSingle (bits : Nat) : Option Nat :=
  let s := (bits >>> 63) % 2
  let e := (bits >>> 52) % 2048
  let m := bits % 2 ^ 52
  if e = 2047 then
    if m = 0 then some (s * 2 ^ 31 + 0x7f800000) else none
  else if e = 0 then
    if m = 0 then some (s * 2 ^ 31) else none
  else
    let E : Int := (e : Int) - 1023
    if -126 ≤ E ∧ E ≤ 127 then
      if m % 2 ^ 29 = 0 then some (s * 2 ^ 31 + (E + 127).toNat * 2 ^ 23 + m / 2 ^ 29)
      else none
    else if -149 ≤ E ∧ E < -126 then
      let sh : Nat := (-E - 97).toNat
      let sig := 2 ^ 52 + m
      if sig % 2 ^ sh = 0 then some (s * 2 ^ 31 + sig / 2 ^ sh) else none
    else none

/-- Float encoding: every NaN is collapsed to the single half-precision
quiet NaN encoding f97e00 (`NaNConvert7e00`); all other values are packed
into the smallest width that preserves the exact value. -/
def encodeFloat (bits : Nat) : List Nat :=
  if isNaN64 bits then [0xf9, 0x7e, 0x00]
  else
    match doubleToHalf bits with
    | some h => 0xf9 :: beBytes 2 h
    | none =>
        match doubleToSingle bits with
        | some f => 0xfa :: beBytes 4 f
        | none => 0xfb :: beBytes 8 bits

/-- UTF-8 encoding of a single character, as numbers. -/
def charUTF8 (c : Char) : List Nat :=
  let n := c.toNat
  if n < 0x80 then [n]
  else if n < 0x800 then [0xc0 + n / 64, 0x80 + n % 64]
  else if n < 0x10000 then [0xe0 + n / 4096, 0x80 + n / 64 % 64, 0x80 + n % 64]
  else [0xf0 + n / 262144, 0x80 + n / 4096 % 64, 0x80 + n / 64 % 64, 0x80 + n % 64]

/-- UTF-8 bytes of a string, as numbers. -/
def strBytes (s : String) : List Nat :=
  (s.data.map charUTF8).flatten

/-- UTF-8 byte length of a string. -/
def strByteLen (s : String) : Nat :=
  (strBytes s).length

/-- Lexicographic comparison of character sequences by codepoint (Go's
bytewise string ordering: UTF-8 byte order agrees with codepoint order). -/
def charListLE : List Char → List Char → Bool
  | [], _ => true
  | _ :: _, [] => false
  | a :: as, b :: bs =>
      if a.toNat < b.toNat then true
      else if b.toNat < a.toNat then false
      else charListLE as bs

/-- Go string ordering. -/
def strLE (a b : String) : Bool :=
  charListLE a.data b.data

/-- The canonical ("length-first" bytewise) ordering of encoded string keys:
a shorter encoding sorts first, equal lengths compare lexicographically. -/
def keyCanonLE (a b : String) : Prop :=
  strByteLen a < strByteLen b ∨ (strByteLen a = strByteLen b ∧ strLE a b = true)

instance : DecidableRel keyCanonLE := fun a b => by
  unfold keyCanonLE; infer_instance

mutual

/-- Byte-level canonical encoding of a value: definite lengths only, strings
as the byte-string major type, map entries sorted by the canonical ordering
of their encoded keys, floats packed (NaN canonicalized). The `omitempty`
elision of struct fields is not modelled. -/
def encodeValue : Value → List Nat
  | .int n =>
      if 0 ≤ n then encodeHead 0 n.toNat
      else encodeHead 1 (-1 - n).toNat
  | .str s => encodeHead 2 (strByteLen s) ++ strBytes s
  | .bool b => if b then [0xf5] else [0xf4]
  | .null => [0xf6]
  | .float bits => encodeFloat bits
  | .arr xs => encodeHead 4 xs.length ++ encodeValueList xs
  | .obj kvs =>
      let encoded := encodeValuePairs kvs
      let sorted := encoded.insertionSort fun x y => keyCanonLE x.1 y.1
      encodeHead 5 kvs.length ++ (sorted.map fun p => p.2).flatten

/-- Concatenated encodings of array elements. -/
def encodeValueList : List Value → List Nat
  | [] => []
  | x :: xs => encodeValue x ++ encodeValueList xs

/-- Per-entry encodings of map entries, each paired with its key for
sorting: the entry bytes are the encoded key followed by the encoded value. -/
def encodeValuePairs : List (String × Value) → List (String × List Nat)
  | [] => []
  | (k, v) :: rest =>
      (k, encodeHead 2 (strByteLen k) ++ strBytes k ++ encodeValue v) :: encodeValuePairs rest

end

/-! ## Runtime objects and serializer errors -/

/-- runtime.Object as the serializer dispatches on it: an unstructured
object exposing a content mapping (`runtime.Unstructured`), or a typed
(registered, reflectively decoded) object carrying its destination struct
shape and current value. -/
inductive Obj where
  | unstructured (content : Value)
  | typed (fields : List (String × DestTy)) (val : Value)
deriving DecidableEq, Repr

/-- The serializer-level error taxonomy (spec §7): meta-factory interpret
failure, decode errors, missing kind/version, registry failures, the
non-fatal strict decoding warning, and opaque collaborator errors. -/
inductive SerErr where
  | gvkInterpret
  | decodeError (e : DecErr)
  | missingKind
  | missingVersion
  | notRegistered
  | strictDecoding (errs : List DecErr)
  | otherError (msg : String)
deriving DecidableEq, Repr

/-- runtime.IsStrictDecodingError. -/
def SerErr.isStrictDecoding : SerErr → Bool
  | .strictDecoding _ => true
  | _ => false

/-- The serializer: a meta-factory, an object creater, an object typer and
the options (cbor.go `serializer` struct; the collaborators are interface
values, modelled as functions). -/
structure Serializer where
  metaFactory : Option CborItem → Except SerErr GroupVersionKind
  creater : GroupVersionKind → Except SerErr Obj
  typer : Obj → Except SerErr (List GroupVersionKind)
  strict : Bool

/-- Association-list lookup of a field value. -/
def lookupVal : List (String × Value) → String → Option Value
  | [], _ => none
  | (k, v) :: rest, s => if k = s then some v else lookupVal rest s

/-- Reads a string entry of a decoded mapping or struct value: the entry's
string content if present and a string, the empty string otherwise (the
unstructured accessors return "" for missing or non-string entries). -/
def getStringField (v : Value) (k : String) : String :=
  match v with
  | .obj kvs =>
      match lookupVal kvs k with
      | some (.str s) => s
      | _ => ""
  | _ => ""

/-- `into.GetObjectKind().GroupVersionKind()` for an unstructured object:
the GVK derived from the `apiVersion` and `kind` entries of its content
mapping. For a typed object the model does not track a stored GVK (the
serializer never reads it). -/
def Obj.objectKindGVK : Obj → GroupVersionKind
  | .unstructured c => fromAPIVersionAndKind (getStringField c "apiVersion") (getStringField c "kind")
  | .typed _ _ => default

/-! ## Meta-factory (cbor.go defaultMetaFactory) -/

/-- The destination of the meta-factory's lax decode: metav1.TypeMeta, a
struct with exactly the two string fields `apiVersion` and `kind`. -/
def typeMetaTy : DestTy := .structTy [("apiVersion", .stringTy), ("kind", .stringTy)]

/-- defaultMetaFactory.Interpret (cbor.go lines 1145-1152): lax-decode the
payload into TypeMeta; on failure report the "unable to determine
group/version/kind" error; on success derive the GVK from the two fields. -/
def defaultMetaFactoryInterpret (data : Option CborItem) : Except SerErr GroupVersionKind :=
  match unmarshalWith modes.DecodeLax data typeMetaTy with
  | .error _ => .error .gvkInterpret
  | .ok tm => .ok (fromAPIVersionAndKind (getStringField tm "apiVersion") (getStringField tm "kind"))

/-! ## serializer.unmarshal and Decode (cbor.go lines 1241-1328) -/

/-- The mode selection and strict-retry logic of serializer.unmarshal
(cbor.go lines 1255-1268) for a destination of type `t`: without the strict
option, a single lax decode; with it, a strict decode whose unknown-field
error is converted into a `StrictDecodingError` warning returned alongside
the result of repeating the decode in lax mode. -/
def Serializer.unmarshalRaw (s : Serializer) (data : Option CborItem) (t : DestTy) :
    Option SerErr × Except SerErr Value :=
  if !s.strict then
    (none, (unmarshalWith modes.DecodeLax data t).mapError .decodeError)
  else
    match unmarshalWith modes.Decode data t with
    | .error (.unknownField i) =>
        (some (.strictDecoding [.unknownField i]),
          (unmarshalWith modes.DecodeLax data t).mapError .decodeError)
    | .error e => (none, .error (.decodeError e))
    | .ok v => (none, .ok v)

/-- serializer.unmarshal (cbor.go lines 1241-1269): returns the strict
warning (if any), the fatal error (if any), and the post-call state of the
destination object. An unstructured destination is decoded through a local
`map[string]interface{}` variable installed by a deferred
`SetUnstructuredContent` that runs on every path, so on a fatal decode error
it holds the variable's zero value (nil); a typed destination is decoded in
place and is unchanged on error in this all-or-nothing model. -/
def Serializer.unmarshal (s : Serializer) (data : Option CborItem) (into : Obj) :
    Option SerErr × Option SerErr × Obj :=
  match into with
  | .unstructured _ =>
      match s.unmarshalRaw data (.mapTy .anyTy) with
      | (w, .ok c) => (w, none, .unstructured c)
      | (w, .error e) => (w, some e, .unstructured .null)
  | .typed fields v0 =>
      match s.unmarshalRaw data (.structTy fields) with
      | (w, .ok v) => (w, none, .typed fields v)
      | (w, .error e) => (w, some e, .typed fields v0)

/-- Modelled from the spec: `runtime.UseOrCreateObject` (not under src/) —
reuse `into` when the typer reports its kinds and the effective GVK is among
them, otherwise instantiate a new object from the registry keyed by the
GVK. -/
def useOrCreateObject (typer : Obj → Except SerErr (List GroupVersionKind))
    (creater : GroupVersionKind → Except SerErr Obj)
    (gvk : GroupVersionKind) (into : Option Obj) : Except SerErr Obj :=
  match into with
  | some obj =>
      match typer obj with
      | .ok kinds => if gvk ∈ kinds then .ok obj else creater gvk
      | .error _ => creater gvk
  | none => creater gvk

/-- The result of a Decode call: the returned object, the returned effective
GVK, the returned error, and the post-call state of the caller-supplied
`into` object (`none` when no `into` was supplied). Pointer identity between
the returned object and `into` is abstracted to structural equality. -/
structure DecodeResult where
  obj : Option Obj
  gvk : Option GroupVersionKind
  err : Option SerErr
  intoAfter : Option Obj
deriving DecidableEq, Repr

/-- The state of the caller's `into` after a decode into `obj`: when the
selected target was `into` itself the caller observes the decoded state,
otherwise `into` is untouched. -/
def intoAfterOf (into : Option Obj) (obj post : Obj) : Option Obj :=
  match into with
  | none => none
  | some i => if i = obj then some post else some i

/-- The tail of serializer.Decode shared by the typed-into and nil-into
paths (cbor.go lines 1311-1327): require non-empty kind and version, select
the target object, decode into it, and surface the strict warning alongside
the object. -/
def Serializer.decodeFinish (s : Serializer) (data : Option CborItem)
    (actual : GroupVersionKind) (into : Option Obj) : DecodeResult :=
  if actual.kind = "" then ⟨none, some actual, some .missingKind, into⟩
  else if actual.version = "" then ⟨none, some actual, some .missingVersion, into⟩
  else
    match useOrCreateObject s.typer s.creater actual into with
    | .error e => ⟨none, some actual, some e, into⟩
    | .ok obj =>
        match s.unmarshal data obj with
        | (_, some e, post) => ⟨none, some actual, some e, intoAfterOf into obj post⟩
        | (strictW, none, post) => ⟨some post, some actual, strictW, intoAfterOf into obj post⟩

/-- serializer.Decode (cbor.go lines 1271-1328): interpret the wire GVK,
default it from the caller's GVK, dispatch on the target (unstructured
`into`, typed `into` via the typer, or construction from the registry),
decode, and verify kind and version. -/
def Serializer.Decode (s : Serializer) (data : Option CborItem)
    (gvk : Option GroupVersionKind) (into : Option Obj) : DecodeResult :=
  match s.metaFactory data with
  | .error e => ⟨none, none, some e, into⟩
  | .ok actual0 =>
      let actual1 := match gvk with
        | some g => gvkWithDefaults actual0 g
        | none => actual0
      match into with
      | some intoObj =>
          match intoObj with
          | .unstructured _ =>
              match s.unmarshal data intoObj with
              | (_, some e, post) => ⟨none, some actual1, some e, some post⟩
              | (_, none, post) =>
                  let actual2 := post.objectKindGVK
                  if actual2.kind = "" then
                    ⟨none, some actual2, some .missingKind, some post⟩
                  else if actual2.version = "" then
                    ⟨none, some actual2, some .missingVersion, some post⟩
                  else ⟨some post, some actual2, none, some post⟩
          | .typed _ _ =>
              match s.typer intoObj with
              | .error e => ⟨none, some actual1, some e, some intoObj⟩
              | .ok types =>
                  s.decodeFinish data (gvkWithDefaults actual1 (types.headD default)) (some intoObj)
      | none => s.decodeFinish data actual1 none

/-! ## RecognizesData, Identifier and Encode -/

/-- The RFC 8949 self-described CBOR tag. -/
def selfDescribedTag : List Nat := [0xd9, 0xd9, 0xf7]

/-- serializer.RecognizesData (cbor.go lines 1330-1333): recognised iff the
input begins with the self-described CBOR tag; unknown always false, error
always nil. -/
def Serializer.RecognizesData (_ : Serializer) (data : List Nat) :
    Bool × Bool × Option SerErr :=
  (selfDescribedTag.isPrefixOf data, false, none)

/-- serializer.Identifier. -/
def Serializer.Identifier (_ : Serializer) : String := "cbor"

/-- One io.Writer.Write call against a writer modelled as a trace of
per-call outcomes: the head entry decides this call (`none`: all bytes
accepted; `some msg`: the call fails and no bytes are accepted); an
exhausted trace accepts everything. -/
def writeCall (w : List (Option String)) (out bs : List Nat) :
    Except String (List (Option String) × List Nat) :=
  match w with
  | [] => .ok ([], out ++ bs)
  | none :: rest => .ok (rest, out ++ bs)
  | some e :: _ => .error e

/-- The payload bytes of an object: the canonical encoding of the
unstructured content mapping when the object is unstructured, otherwise the
canonical encoding of the object value. -/
def encodePayload : Obj → List Nat
  | .unstructured c => encodeValue c
  | .typed _ v => encodeValue v

/-- serializer.Encode (cbor.go lines 1200-1211): write the three-byte
self-described CBOR tag, propagating a writer error, then encode the object
to the writer. Returns the error (if any) and all bytes the writer
accepted. -/
def Serializer.Encode (_ : Serializer) (obj : Obj) (w : List (Option String)) :
    Option String × List Nat :=
  match writeCall w [] selfDescribedTag with
  | .error e => (some e, [])
  | .ok (w1, out1) =>
      match writeCall w1 out1 (encodePayload obj) with
      | .error e => (some e, out1)
      | .ok (_, out2) => (none, out2)

/-! ## Stub collaborators (mirroring the test stubs) used by concrete
instantiations -/

/-- A meta-factory that always reports the given GVK (stubMetaFactory). -/
def stubMetaFactoryOk (g : GroupVersionKind) : Option CborItem → Except SerErr GroupVersionKind :=
  fun _ => .ok g

/-- A typer that reports the given kinds for every object (stubTyper). -/
def stubTyperOk (gvks : List GroupVersionKind) : Obj → Except SerErr (List GroupVersionKind) :=
  fun _ => .ok gvks

/-- A typer that recognises nothing (notRegisteredTyper). -/
def stubTyperNotRegistered : Obj → Except SerErr (List GroupVersionKind) :=
  fun _ => .error .notRegistered

/-- A creater that always returns the given object (stubCreater). -/
def stubCreaterObj (o : Obj) : GroupVersionKind → Except SerErr Obj :=
  fun _ => .ok o

/-- A creater that always fails (stubCreater with error). -/
def stubCreaterErr : GroupVersionKind → Except SerErr Obj :=
  fun _ => .error (.otherError "test")

/-! ## Claim C3 — GVK defaulting -/

/-- C3: for every pair of GVKs, `gvkWithDefaults` fills empty fields of
`actual` from the default with exactly this precedence: an empty Kind
becomes the default Kind; if both Version and Group are empty, both become
the default's; otherwise an empty Version with a Group equal to the
default's Group becomes the default Version; all other fields are
unchanged. -/
theorem C3_gvk_defaulting (a d : GroupVersionKind) :
    gvkWithDefaults a d =
      ⟨if a.version = "" ∧ a.group = "" then d.group else a.group,
        if a.version = "" ∧ a.group = "" then d.version
        else if a.version = "" ∧ a.group = d.group then d.version else a.version,
        if a.kind = "" then d.kind else a.kind⟩ := by
  unfold gvkWithDefaults
  by_cases hk : a.kind = "" <;> by_cases hv : a.version = "" <;> by_cases hg : a.group = "" <;>
    by_cases hgd : a.group = d.group <;> by_cases hdv : d.version = "" <;>
    simp_all <;> cases a <;> cases d <;> simp_all

/-! ## Claim C8 — RecognizesData -/

/-- C8: for every input byte sequence, `RecognizesData` reports recognised
exactly when the input begins with the three self-described-CBOR tag bytes
0xd9 0xd9 0xf7, the unknown result is never true, and the error result is
always nil. -/
theorem C8_recognizes_data (s : Serializer) (b : List Nat) :
    ((s.RecognizesData b).1 = true ↔ ∃ rest, b = 0xd9 :: 0xd9 :: 0xf7 :: rest)
      ∧ (s.RecognizesData b).2.1 = false ∧ (s.RecognizesData b).2.2 = none := by
  refine ⟨?_, rfl, rfl⟩
  show selfDescribedTag.isPrefixOf b = true ↔ _
  rw [List.isPrefixOf_iff_prefix]
  constructor
  · rintro ⟨rest, hrest⟩
    exact ⟨rest, hrest.symm⟩
  · rintro ⟨rest, hrest⟩
    exact ⟨rest, hrest.symm⟩

/-! ## Claim C4 — the self-described tag on Encode -/

/-- C4: every byte stream produced by a successful Encode begins with the
three bytes 0xd9 0xd9 0xf7 (written before any payload bytes), and when the
writer fails the tag write, Encode returns that error with no payload bytes
emitted. -/
theorem C4_encode_tag (s : Serializer) (obj : Obj) (w : List (Option String)) :
    (∀ bs, s.Encode obj w = (none, bs) → ∃ payload, bs = 0xd9 :: 0xd9 :: 0xf7 :: payload)
      ∧ (∀ msg rest, w = some msg :: rest → s.Encode obj w = (some msg, [])) := by
  constructor
  · intro bs h
    match w with
    | [] =>
        simp only [Serializer.Encode, writeCall, List.nil_append] at h
        exact ⟨encodePayload obj, by simpa [selfDescribedTag] using congrArg Prod.snd h |>.symm⟩
    | none :: rest =>
        simp only [Serializer.Encode, writeCall, List.nil_append] at h
        match rest with
        | [] =>
            simp only at h
            exact ⟨encodePayload obj, by simpa [selfDescribedTag] using congrArg Prod.snd h |>.symm⟩
        | none :: _ =>
            simp only at h
            exact ⟨encodePayload obj, by simpa [selfDescribedTag] using congrArg Prod.snd h |>.symm⟩
        | some e :: _ =>
            simp only at h
            exact absurd (congrArg Prod.fst h) (by simp)
    | some e :: rest =>
        simp only [Serializer.Encode, writeCall] at h
        exact absurd (congrArg Prod.fst h) (by simp)
  · intro msg rest hw
    subst hw
    rfl

/-- C4 witness: a concrete successful Encode begins with the tag, and a
concrete writer that fails the first call yields the error with no bytes. -/
theorem C4_encode_tag_witness :
    (Serializer.Encode ⟨stubMetaFactoryOk default, stubCreaterErr, stubTyperOk [], false⟩
        (.unstructured (.obj [])) [] = (none, [0xd9, 0xd9, 0xf7, 0xa0])
      → ∃ payload, [0xd9, 0xd9, 0xf7, 0xa0] = 0xd9 :: 0xd9 :: 0xf7 :: payload)
    ∧ Serializer.Encode ⟨stubMetaFactoryOk default, stubCreaterErr, stubTyperOk [], false⟩
        (.unstructured (.obj [])) [some "short write"] = (some "short write", []) := by
  constructor
  · exact (C4_encode_tag ⟨stubMetaFactoryOk default, stubCreaterErr, stubTyperOk [], false⟩
      (.unstructured (.obj [])) []).1 [0xd9, 0xd9, 0xf7, 0xa0]
  · exact (C4_encode_tag ⟨stubMetaFactoryOk default, stubCreaterErr, stubTyperOk [], false⟩
      (.unstructured (.obj [])) [some "short write"]).2 "short write" [] rfl

/-! ## Claim C5 — NaN canonicalisation -/

/-- C5: every NaN bit pattern is encoded as the single canonical
half-precision quiet NaN encoding f9 7e 00 (never at single or double
width); in particular Encode of an object holding such a float emits exactly
the self-described tag followed by those three bytes. -/
theorem C5_nan_canonical (bits : Nat) (h : isNaN64 bits = true) :
    encodeValue (.float bits) = [0xf9, 0x7e, 0x00]
      ∧ ∀ s : Serializer, s.Encode (.unstructured (.float bits)) []
          = (none, [0xd9, 0xd9, 0xf7, 0xf9, 0x7e, 0x00]) := by
  have henc : encodeValue (.float bits) = [0xf9, 0x7e, 0x00] := by
    simp [encodeValue, encodeFloat, h]
  refine ⟨henc, fun s => ?_⟩
  simp [Serializer.Encode, writeCall, encodePayload, henc, selfDescribedTag]

/-- C5 witness: the quiet NaN bit pattern 0x7ff8000000000000 is a NaN and
encodes to f9 7e 00. -/
theorem C5_nan_canonical_witness :
    isNaN64 0x7ff8000000000000 = true
      ∧ encodeValue (.float 0x7ff8000000000000) = [0xf9, 0x7e, 0x00] := by
  refine ⟨by decide, (C5_nan_canonical 0x7ff8000000000000 (by decide)).1⟩

/-! ## Strict/lax mode agreement

The strict and lax decode modes differ only in the unknown-field flag
(`DecodeLax` is literally derived from `Decode` by clearing it), so on any
input and destination the strict decode either returns exactly the lax
result or fails with an unknown-field error. -/

mutual

theorem decodeVal_modes : ∀ (item : CborItem) (t : DestTy),
    decodeVal modes.Decode item t = decodeVal modes.DecodeLax item t
      ∨ ∃ i, decodeVal modes.Decode item t = .error (.unknownField i)
  | .int _, .anyTy => .inl rfl
  | .str _, .anyTy => .inl rfl
  | .bool _, .anyTy => .inl rfl
  | .null, .anyTy => .inl rfl
  | .float _, .anyTy => .inl rfl
  | .array xs, .anyTy => by
      simp only [decodeVal]
      rcases decodeList_modes xs .anyTy with h | ⟨i, h⟩
      · rw [h]; exact .inl rfl
      · refine .inr ⟨i, ?_⟩; rw [h]; rfl
  | .map kvs, .anyTy => by
      simp only [decodeVal]
      rcases decodeEntries_modes kvs .anyTy [] with h | ⟨i, h⟩
      · rw [h]; exact .inl rfl
      · refine .inr ⟨i, ?_⟩; rw [h]; rfl
  | .str _, .stringTy => .inl rfl
  | .int _, .stringTy => .inl rfl
  | .bool _, .stringTy => .inl rfl
  | .null, .stringTy => .inl rfl
  | .float _, .stringTy => .inl rfl
  | .array _, .stringTy => .inl rfl
  | .map _, .stringTy => .inl rfl
  | .int _, .intTy => .inl rfl
  | .str _, .intTy => .inl rfl
  | .bool _, .intTy => .inl rfl
  | .null, .intTy => .inl rfl
  | .float _, .intTy => .inl rfl
  | .array _, .intTy => .inl rfl
  | .map _, .intTy => .inl rfl
  | .bool _, .boolTy => .inl rfl
  | .int _, .boolTy => .inl rfl
  | .str _, .boolTy => .inl rfl
  | .null, .boolTy => .inl rfl
  | .float _, .boolTy => .inl rfl
  | .array _, .boolTy => .inl rfl
  | .map _, .boolTy => .inl rfl
  | .map kvs, .structTy fields => by
      simp only [decodeVal]
      rcases decodeStruct_modes kvs fields [] 0 (zeroFields fields) with h | ⟨i, h⟩
      · rw [h]; exact .inl rfl
      · refine .inr ⟨i, ?_⟩; rw [h]; rfl
  | .int _, .structTy _ => .inl rfl
  | .str _, .structTy _ => .inl rfl
  | .bool _, .structTy _ => .inl rfl
  | .null, .structTy _ => .inl rfl
  | .float _, .structTy _ => .inl rfl
  | .array _, .structTy _ => .inl rfl
  | .map kvs, .mapTy vt => by
      simp only [decodeVal]
      rcases decodeEntries_modes kvs vt [] with h | ⟨i, h⟩
      · rw [h]; exact .inl rfl
      · refine .inr ⟨i, ?_⟩; rw [h]; rfl
  | .int _, .mapTy _ => .inl rfl
  | .str _, .mapTy _ => .inl rfl
  | .bool _, .mapTy _ => .inl rfl
  | .null, .mapTy _ => .inl rfl
  | .float _, .mapTy _ => .inl rfl
  | .array _, .mapTy _ => .inl rfl
  | .array xs, .arrTy t => by
      simp only [decodeVal]
      rcases decodeList_modes xs t with h | ⟨i, h⟩
      · rw [h]; exact .inl rfl
      · refine .inr ⟨i, ?_⟩; rw [h]; rfl
  | .int _, .arrTy _ => .inl rfl
  | .str _, .arrTy _ => .inl rfl
  | .bool _, .arrTy _ => .inl rfl
  | .null, .arrTy _ => .inl rfl
  | .float _, .arrTy _ => .inl rfl
  | .map _, .arrTy _ => .inl rfl

theorem decodeList_modes : ∀ (xs : List CborItem) (t : DestTy),
    decodeList modes.Decode xs t = decodeList modes.DecodeLax xs t
      ∨ ∃ i, decodeList modes.Decode xs t = .error (.unknownField i)
  | [], _ => .inl rfl
  | x :: xs, t => by
      simp only [decodeList]
      rcases decodeVal_modes x t with h | ⟨i, h⟩
      · rw [h]
        cases hv : decodeVal modes.DecodeLax x t with
        | error e => exact .inl rfl
        | ok v =>
            rcases decodeList_modes xs t with h2 | ⟨j, h2⟩
            · rw [h2]; exact .inl rfl
            · refine .inr ⟨j, ?_⟩; rw [h2]; rfl
      · refine .inr ⟨i, ?_⟩; rw [h]; rfl

theorem decodeEntries_modes : ∀ (kvs : List (CborItem × CborItem)) (vt : DestTy)
      (seen : List String),
    decodeEntries modes.Decode kvs vt seen = decodeEntries modes.DecodeLax kvs vt seen
      ∨ ∃ i, decodeEntries modes.Decode kvs vt seen = .error (.unknownField i)
  | [], _, _ => .inl rfl
  | (k, v) :: rest, vt, seen => by
      cases k with
      | str s =>
          simp only [decodeEntries]
          by_cases hs : s ∈ seen
          · simp only [if_pos hs]; exact .inl trivial
          · simp only [if_neg hs]
            rcases decodeVal_modes v vt with h | ⟨i, h⟩
            · rw [h]
              cases hv : decodeVal modes.DecodeLax v vt with
              | error e => exact .inl rfl
              | ok dv =>
                  rcases decodeEntries_modes rest vt (s :: seen) with h2 | ⟨j, h2⟩
                  · rw [h2]; exact .inl rfl
                  · refine .inr ⟨j, ?_⟩; rw [h2]; rfl
            · refine .inr ⟨i, ?_⟩; rw [h]; rfl
      | int n => exact .inl rfl
      | bool b => exact .inl rfl
      | null => exact .inl rfl
      | float bits => exact .inl rfl
      | array xs => exact .inl rfl
      | map m => exact .inl rfl

theorem decodeStruct_modes : ∀ (entries : List (CborItem × CborItem))
      (fields : List (String × DestTy)) (seen : List CborItem) (idx : Nat)
      (acc : List (String × Value)),
    decodeStruct modes.Decode entries fields seen idx acc
        = decodeStruct modes.DecodeLax entries fields seen idx acc
      ∨ ∃ i, decodeStruct modes.Decode entries fields seen idx acc = .error (.unknownField i)
  | [], _, _, _, _ => .inl rfl
  | (k, v) :: rest, fields, seen, idx, acc => by
      cases k with
      | str s =>
          simp only [decodeStruct]
          by_cases hk : CborItem.str s ∈ seen
          · simp only [if_pos hk]; exact .inl trivial
          · simp only [if_neg hk]
            cases hf : lookupField fields s with
            | some ft =>
                simp only [hf]
                rcases decodeVal_modes v ft with h | ⟨i, h⟩
                · rw [h]
                  cases hv : decodeVal modes.DecodeLax v ft with
                  | error e => exact .inl rfl
                  | ok fv =>
                      rcases decodeStruct_modes rest fields (.str s :: seen) (idx + 1)
                          (setField acc s fv) with h2 | ⟨j, h2⟩
                      · refine .inl ?_
                        show decodeStruct modes.Decode rest fields
                            (.str s :: seen) (idx + 1) (setField acc s fv)
                          = decodeStruct modes.DecodeLax rest fields
                            (.str s :: seen) (idx + 1) (setField acc s fv)
                        exact h2
                      · refine .inr ⟨j, ?_⟩
                        show decodeStruct modes.Decode rest fields
                            (.str s :: seen) (idx + 1) (setField acc s fv)
                          = Except.error (.unknownField j)
                        exact h2
                · refine .inr ⟨i, ?_⟩; rw [h]; rfl
            | none =>
                simp only [hf]
                exact .inr ⟨idx, rfl⟩
      | int n =>
          simp only [decodeStruct]
          by_cases hk : CborItem.int n ∈ seen
          · simp only [if_pos hk]; exact .inl trivial
          · simp only [if_neg hk]; exact .inr ⟨idx, rfl⟩
      | bool b =>
          simp only [decodeStruct]
          by_cases hk : CborItem.bool b ∈ seen
          · simp only [if_pos hk]; exact .inl trivial
          · simp only [if_neg hk]; exact .inr ⟨idx, rfl⟩
      | null =>
          simp only [decodeStruct]
          by_cases hk : CborItem.null ∈ seen
          · simp only [if_pos hk]; exact .inl trivial
          · simp only [if_neg hk]; exact .inr ⟨idx, rfl⟩
      | float bits =>
          simp only [decodeStruct]
          by_cases hk : CborItem.float bits ∈ seen
          · simp only [if_pos hk]; exact .inl trivial
          · simp only [if_neg hk]; exact .inr ⟨idx, rfl⟩
      | array xs =>
          simp only [decodeStruct]
          by_cases hk : CborItem.array xs ∈ seen
          · simp only [if_pos hk]; exact .inl trivial
          · simp only [if_neg hk]; exact .inr ⟨idx, rfl⟩
      | map m =>
          simp only [decodeStruct]
          by_cases hk : CborItem.map m ∈ seen
          · simp only [if_pos hk]; exact .inl trivial
          · simp only [if_neg hk]; exact .inr ⟨idx, rfl⟩

end

/-- Destination types that contain no struct destination (decoding into them
can never produce an unknown-field condition). -/
def structFree : DestTy → Bool
  | .anyTy => true
  | .stringTy => true
  | .intTy => true
  | .boolTy => true
  | .structTy _ => false
  | .mapTy vt => structFree vt
  | .arrTy t => structFree t

mutual

theorem decodeVal_structFree : ∀ (item : CborItem) (t : DestTy), structFree t = true →
    decodeVal modes.Decode item t = decodeVal modes.DecodeLax item t
  | .int _, .anyTy, _ => rfl
  | .str _, .anyTy, _ => rfl
  | .bool _, .anyTy, _ => rfl
  | .null, .anyTy, _ => rfl
  | .float _, .anyTy, _ => rfl
  | .array xs, .anyTy, h => by
      simp only [decodeVal]
      rw [decodeList_structFree xs .anyTy h]
  | .map kvs, .anyTy, h => by
      simp only [decodeVal]
      rw [decodeEntries_structFree kvs .anyTy [] h]
  | .str _, .stringTy, _ => rfl
  | .int _, .stringTy, _ => rfl
  | .bool _, .stringTy, _ => rfl
  | .null, .stringTy, _ => rfl
  | .float _, .stringTy, _ => rfl
  | .array _, .stringTy, _ => rfl
  | .map _, .stringTy, _ => rfl
  | .int _, .intTy, _ => rfl
  | .str _, .intTy, _ => rfl
  | .bool _, .intTy, _ => rfl
  | .null, .intTy, _ => rfl
  | .float _, .intTy, _ => rfl
  | .array _, .intTy, _ => rfl
  | .map _, .intTy, _ => rfl
  | .bool _, .boolTy, _ => rfl
  | .int _, .boolTy, _ => rfl
  | .str _, .boolTy, _ => rfl
  | .null, .boolTy, _ => rfl
  | .float _, .boolTy, _ => rfl
  | .array _, .boolTy, _ => rfl
  | .map _, .boolTy, _ => rfl
  | .map kvs, .mapTy vt, h => by
      simp only [decodeVal]
      rw [decodeEntries_structFree kvs vt [] (by simpa [structFree] using h)]
  | .int _, .mapTy _, _ => rfl
  | .str _, .mapTy _, _ => rfl
  | .bool _, .mapTy _, _ => rfl
  | .null, .mapTy _, _ => rfl
  | .float _, .mapTy _, _ => rfl
  | .array _, .mapTy _, _ => rfl
  | .array xs, .arrTy t, h => by
      simp only [decodeVal]
      rw [decodeList_structFree xs t (by simpa [structFree] using h)]
  | .int _, .arrTy _, _ => rfl
  | .str _, .arrTy _, _ => rfl
  | .bool _, .arrTy _, _ => rfl
  | .null, .arrTy _, _ => rfl
  | .float _, .arrTy _, _ => rfl
  | .map _, .arrTy _, _ => rfl

theorem decodeList_structFree : ∀ (xs : List CborItem) (t : DestTy), structFree t = true →
    decodeList modes.Decode xs t = decodeList modes.DecodeLax xs t
  | [], _, _ => rfl
  | x :: xs, t, h => by
      simp only [decodeList]
      rw [decodeVal_structFree x t h, decodeList_structFree xs t h]

theorem decodeEntries_structFree : ∀ (kvs : List (CborItem × CborItem)) (vt : DestTy)
      (seen : List String), structFree vt = true →
    decodeEntries modes.Decode kvs vt seen = decodeEntries modes.DecodeLax kvs vt seen
  | [], _, _, _ => rfl
  | (k, v) :: rest, vt, seen, h => by
      cases k with
      | str s =>
          simp only [decodeEntries]
          by_cases hs : s ∈ seen
          · simp only [if_pos hs]
          · simp only [if_neg hs]
            rw [decodeVal_structFree v vt h, decodeEntries_structFree rest vt (s :: seen) h]
      | int n => rfl
      | bool b => rfl
      | null => rfl
      | float bits => rfl
      | array xs => rfl
      | map m => rfl

end

/-! ## Claim C10 — strict decode refines lax decode -/

/-- C10: for every input and destination, if the strict decode mode succeeds
then the lax mode succeeds with the identical value; moreover the two modes
differ only in the unknown-field condition: either they return exactly the
same result, or the strict mode fails with an unknown-field error. (The lax
mode, `modes.DecodeLax`, is derived from `modes.Decode` by clearing exactly
the unknown-field flag of `ExtraReturnErrors`.) -/
theorem C10_strict_refines_lax (data : Option CborItem) (t : DestTy) :
    (∀ v, unmarshalWith modes.Decode data t = .ok v →
        unmarshalWith modes.DecodeLax data t = .ok v)
      ∧ (unmarshalWith modes.Decode data t = unmarshalWith modes.DecodeLax data t
          ∨ ∃ i, unmarshalWith modes.Decode data t = .error (.unknownField i)) := by
  match data with
  | none => exact ⟨fun v h => h, .inl rfl⟩
  | some item =>
      refine ⟨?_, decodeVal_modes item t⟩
      intro v hv
      rcases decodeVal_modes item t with h | ⟨i, h⟩
      · rw [unmarshalWith] at hv ⊢
        rw [← h]
        exact hv
      · rw [unmarshalWith] at hv
        rw [hv] at h
        cases h

/-- C10 witness: on the concrete input {"a": 1} decoded into a struct with
an `a` field, the strict decode succeeds and by the theorem the lax decode
returns the identical value. -/
theorem C10_strict_refines_lax_witness :
    unmarshalWith modes.DecodeLax (some (.map [(.str "a", .int 1)])) (.structTy [("a", .intTy)])
      = .ok (.obj [("a", .int 1)]) :=
  (C10_strict_refines_lax (some (.map [(.str "a", .int 1)]))
      (.structTy [("a", .intTy)])).1 (.obj [("a", .int 1)]) (by decide)

/-! ## Serializer path lemmas -/

/-- The lax mode never produces an unknown-field error (its unknown-field
flag is cleared). -/
theorem unmarshalWith_lax_ok_of_unmarshalRaw_ok (s : Serializer) (data : Option CborItem)
    (t : DestTy) (v : Value) (h : (s.unmarshalRaw data t).2 = .ok v) :
    unmarshalWith modes.DecodeLax data t = .ok v := by
  unfold Serializer.unmarshalRaw at h
  by_cases hs : s.strict
  · simp only [hs, Bool.not_true, Bool.false_eq_true, if_false] at h
    cases hd : unmarshalWith modes.Decode data t with
    | ok w =>
        rw [hd] at h
        simp only at h
        cases h
        match data, hd with
        | none, hd => exact absurd hd (by simp [unmarshalWith])
        | some item, hd =>
            rw [unmarshalWith] at hd ⊢
            rcases decodeVal_modes item t with hm | ⟨i, hm⟩
            · rw [← hm]; exact hd
            · rw [hm] at hd; cases hd
    | error e =>
        rw [hd] at h
        match e, h with
        | .unknownField i, h =>
            simp only [Except.mapError] at h
            cases hl : unmarshalWith modes.DecodeLax data t with
            | ok w => rw [hl] at h; simp only at h; cases h; rfl
            | error e2 => rw [hl] at h; simp only at h; exact Except.noConfusion h
        | .malformed, h => exact Except.noConfusion h
        | .dupMapKey, h => exact Except.noConfusion h
        | .typeMismatch, h => exact Except.noConfusion h
        | .intOverflow, h => exact Except.noConfusion h
  · simp only [hs, Bool.not_false, if_true] at h
    cases hl : unmarshalWith modes.DecodeLax data t with
    | ok w => rw [hl] at h; simp only [Except.mapError] at h; cases h; rfl
    | error e2 =>
        rw [hl] at h; simp only [Except.mapError] at h
        exact Except.noConfusion h

/-- For a destination free of struct types (the unstructured content
mapping), both modes agree, there is no strict warning, and a successful
decode is returned as-is. -/
theorem unmarshalRaw_structFree_ok (s : Serializer) (data : Option CborItem) (t : DestTy)
    (m : Value) (hfree : structFree t = true)
    (hdec : unmarshalWith modes.DecodeLax data t = .ok m) :
    s.unmarshalRaw data t = (none, .ok m) := by
  have hstrict : unmarshalWith modes.Decode data t = .ok m := by
    match data with
    | none => exact absurd hdec (by simp [unmarshalWith])
    | some item =>
        rw [unmarshalWith] at hdec ⊢
        rw [decodeVal_structFree item t hfree]
        exact hdec
  unfold Serializer.unmarshalRaw
  by_cases hs : s.strict
  · simp only [hs, Bool.not_true, Bool.false_eq_true, if_false, hstrict]
  · simp only [hs, Bool.not_false, if_true, hdec, Except.mapError]

/-- serializer.unmarshal into an unstructured object, successful case. -/
theorem unmarshal_unstructured_ok (s : Serializer) (data : Option CborItem) (c0 m : Value)
    (hdec : unmarshalWith modes.DecodeLax data (.mapTy .anyTy) = .ok m) :
    s.unmarshal data (.unstructured c0) = (none, none, .unstructured m) := by
  unfold Serializer.unmarshal
  rw [unmarshalRaw_structFree_ok s data (.mapTy .anyTy) m rfl hdec]

/-! ## Claim C2 — decoding into an unstructured object -/

/-- C2: for every Decode call whose `into` is an unstructured object, when
the wire GVK interprets and the data decodes successfully into a content
mapping, the returned object is the into object mutated to hold the decoded
mapping and the returned effective GVK is derived from the mapping's
apiVersion and kind entries; an empty derived Kind fails with MissingKind
and an empty derived Version fails with MissingVersion. -/
theorem C2_decode_into_unstructured (s : Serializer) (data : Option CborItem)
    (gvk : Option GroupVersionKind) (c0 : Value) (g0 : GroupVersionKind) (m : Value)
    (hmf : s.metaFactory data = .ok g0)
    (hdec : unmarshalWith modes.DecodeLax data (.mapTy .anyTy) = .ok m) :
    s.Decode data gvk (some (.unstructured c0)) =
      (let g := fromAPIVersionAndKind (getStringField m "apiVersion") (getStringField m "kind")
      if g.kind = "" then ⟨none, some g, some .missingKind, some (.unstructured m)⟩
      else if g.version = "" then ⟨none, some g, some .missingVersion, some (.unstructured m)⟩
      else ⟨some (.unstructured m), some g, none, some (.unstructured m)⟩) := by
  unfold Serializer.Decode
  rw [hmf]
  simp only [unmarshal_unstructured_ok s data c0 m hdec, Obj.objectKindGVK]

/-- C2 witness: decoding {"apiVersion": "v", "kind": "k"} into an
unstructured object returns the mutated object holding the mapping and the
GVK {Version: v, Kind: k}. -/
theorem C2_decode_into_unstructured_witness :
    Serializer.Decode ⟨stubMetaFactoryOk ⟨"", "", ""⟩, stubCreaterErr, stubTyperOk [], false⟩
        (some (.map [(.str "apiVersion", .str "v"), (.str "kind", .str "k")])) none
        (some (.unstructured .null))
      = ⟨some (.unstructured (.obj [("apiVersion", .str "v"), ("kind", .str "k")])),
          some ⟨"", "v", "k"⟩, none,
          some (.unstructured (.obj [("apiVersion", .str "v"), ("kind", .str "k")]))⟩ := by
  rw [C2_decode_into_unstructured
    ⟨stubMetaFactoryOk ⟨"", "", ""⟩, stubCreaterErr, stubTyperOk [], false⟩
    (some (.map [(.str "apiVersion", .str "v"), (.str "kind", .str "k")])) none
    .null ⟨"", "", ""⟩ (.obj [("apiVersion", .str "v"), ("kind", .str "k")])
    (by decide) (by decide)]
  decide

/-! ## Claim C9 — no partial objects -/

/-- An object is a complete decode of the input: its value is exactly the
result of a successful (lax-mode) decode of the whole input into its
destination type — never a partially populated value. -/
def CompleteFor (data : Option CborItem) : Obj → Prop
  | .unstructured m => unmarshalWith modes.DecodeLax data (.mapTy .anyTy) = .ok m
  | .typed f v => unmarshalWith modes.DecodeLax data (.structTy f) = .ok v

/-- A strict warning surfaced by unmarshal is always a StrictDecodingError. -/
theorem unmarshalRaw_warn_strict (s : Serializer) (data : Option CborItem) (t : DestTy)
    (e : SerErr) (h : (s.unmarshalRaw data t).1 = some e) : e.isStrictDecoding = true := by
  unfold Serializer.unmarshalRaw at h
  by_cases hs : s.strict
  · simp only [hs, Bool.not_true, Bool.false_eq_true, if_false] at h
    cases hd : unmarshalWith modes.Decode data t with
    | ok w => rw [hd] at h; simp only at h; exact Option.noConfusion h
    | error de =>
        rw [hd] at h
        match de, h with
        | .unknownField i, h =>
            simp only at h
            cases h
            rfl
        | .malformed, h => exact Option.noConfusion h
        | .dupMapKey, h => exact Option.noConfusion h
        | .typeMismatch, h => exact Option.noConfusion h
        | .intOverflow, h => exact Option.noConfusion h
  · simp only [hs, Bool.not_false, if_true] at h
    exact Option.noConfusion h

/-- The strict warning of the object-level unmarshal is the warning of its
raw decode. -/
theorem unmarshal_warn_strict (s : Serializer) (data : Option CborItem) (into : Obj)
    (e : SerErr) (h : (s.unmarshal data into).1 = some e) : e.isStrictDecoding = true := by
  cases into with
  | unstructured c0 =>
      simp only [Serializer.unmarshal] at h
      cases hr : s.unmarshalRaw data (.mapTy .anyTy) with
      | mk w r =>
          rw [hr] at h
          cases r with
          | ok c => simp only at h; exact unmarshalRaw_warn_strict s data _ e (by rw [hr]; exact h)
          | error e2 => simp only at h; exact unmarshalRaw_warn_strict s data _ e (by rw [hr]; exact h)
  | typed f v0 =>
      simp only [Serializer.unmarshal] at h
      cases hr : s.unmarshalRaw data (.structTy f) with
      | mk w r =>
          rw [hr] at h
          cases r with
          | ok c => simp only at h; exact unmarshalRaw_warn_strict s data _ e (by rw [hr]; exact h)
          | error e2 => simp only at h; exact unmarshalRaw_warn_strict s data _ e (by rw [hr]; exact h)

/-- A successful unmarshal leaves the destination holding a complete decode
of the input. -/
theorem unmarshal_ok_complete (s : Serializer) (data : Option CborItem) (into : Obj)
    (w : Option SerErr) (post : Obj) (h : s.unmarshal data into = (w, none, post)) :
    CompleteFor data post := by
  cases into with
  | unstructured c0 =>
      simp only [Serializer.unmarshal] at h
      cases hr : s.unmarshalRaw data (.mapTy .anyTy) with
      | mk w2 r =>
          rw [hr] at h
          cases r with
          | ok c =>
              simp only [Prod.mk.injEq] at h
              rcases h with ⟨_, _, hpost⟩
              subst hpost
              exact unmarshalWith_lax_ok_of_unmarshalRaw_ok s data _ c (by rw [hr])
          | error e2 =>
              simp only [Prod.mk.injEq] at h
              exact Option.noConfusion h.2.1
  | typed f v0 =>
      simp only [Serializer.unmarshal] at h
      cases hr : s.unmarshalRaw data (.structTy f) with
      | mk w2 r =>
          rw [hr] at h
          cases r with
          | ok c =>
              simp only [Prod.mk.injEq] at h
              rcases h with ⟨_, _, hpost⟩
              subst hpost
              exact unmarshalWith_lax_ok_of_unmarshalRaw_ok s data _ c (by rw [hr])
          | error e2 =>
              simp only [Prod.mk.injEq] at h
              exact Option.noConfusion h.2.1

/-- A successful unmarshal into an unstructured object yields an
unstructured object holding the decoded mapping. -/
theorem unmarshal_unstructured_ok_shape (s : Serializer) (data : Option CborItem) (c0 : Value)
    (w : Option SerErr) (post : Obj) (h : s.unmarshal data (.unstructured c0) = (w, none, post)) :
    ∃ m, post = .unstructured m ∧ unmarshalWith modes.DecodeLax data (.mapTy .anyTy) = .ok m := by
  simp only [Serializer.unmarshal] at h
  cases hr : s.unmarshalRaw data (.mapTy .anyTy) with
  | mk w2 r =>
      rw [hr] at h
      cases r with
      | ok c =>
          simp only [Prod.mk.injEq] at h
          rcases h with ⟨_, _, hpost⟩
          exact ⟨c, hpost.symm, unmarshalWith_lax_ok_of_unmarshalRaw_ok s data _ c (by rw [hr])⟩
      | error e2 =>
          simp only [Prod.mk.injEq] at h
          exact Option.noConfusion h.2.1

/-- A failed unmarshal into an unstructured object leaves it holding the
zero content (the deferred SetUnstructuredContent installs the nil map). -/
theorem unmarshal_unstructured_err_shape (s : Serializer) (data : Option CborItem) (c0 : Value)
    (w : Option SerErr) (e : SerErr) (post : Obj)
    (h : s.unmarshal data (.unstructured c0) = (w, some e, post)) :
    post = .unstructured .null := by
  simp only [Serializer.unmarshal] at h
  cases hr : s.unmarshalRaw data (.mapTy .anyTy) with
  | mk w2 r =>
      rw [hr] at h
      cases r with
      | ok c =>
          simp only [Prod.mk.injEq] at h
          exact Option.noConfusion h.2.1
      | error e2 =>
          simp only [Prod.mk.injEq] at h
          exact h.2.2.symm

/-- The no-partial-object properties of the shared decode tail. -/
theorem decodeFinish_props (s : Serializer) (data : Option CborItem)
    (actual : GroupVersionKind) (into' : Option Obj) :
    ((s.decodeFinish data actual into').err = none →
        ∃ o, (s.decodeFinish data actual into').obj = some o)
    ∧ (∀ e, (s.decodeFinish data actual into').err = some e → e.isStrictDecoding = false →
        (s.decodeFinish data actual into').obj = none)
    ∧ (∀ o, (s.decodeFinish data actual into').obj = some o → CompleteFor data o)
    ∧ (∀ c0, into' = some (.unstructured c0) →
        (s.decodeFinish data actual into').intoAfter = some (.unstructured c0)
        ∨ (s.decodeFinish data actual into').intoAfter = some (.unstructured .null)
        ∨ ∃ m, (s.decodeFinish data actual into').intoAfter = some (.unstructured m)
            ∧ unmarshalWith modes.DecodeLax data (.mapTy .anyTy) = .ok m) := by
  unfold Serializer.decodeFinish
  by_cases hk : actual.kind = ""
  · rw [if_pos hk]
    exact ⟨fun h => Option.noConfusion h, fun e _ _ => rfl, fun o ho => Option.noConfusion ho,
      fun c0 hc => .inl hc⟩
  · rw [if_neg hk]
    by_cases hv : actual.version = ""
    · rw [if_pos hv]
      exact ⟨fun h => Option.noConfusion h, fun e _ _ => rfl, fun o ho => Option.noConfusion ho,
        fun c0 hc => .inl hc⟩
    · rw [if_neg hv]
      cases huse : useOrCreateObject s.typer s.creater actual into' with
      | error e =>
          exact ⟨fun h => Option.noConfusion h, fun e2 _ _ => rfl,
            fun o ho => Option.noConfusion ho, fun c0 hc => .inl hc⟩
      | ok obj =>
          dsimp only
          cases hu : s.unmarshal data obj with
          | mk w rest =>
              cases rest with
              | mk fe post =>
                  cases fe with
                  | some e =>
                      dsimp only
                      refine ⟨fun h => Option.noConfusion h, fun e2 _ _ => rfl,
                        fun o ho => Option.noConfusion ho, fun c0 hc => ?_⟩
                      rw [hc]
                      simp only [intoAfterOf]
                      by_cases heq : Obj.unstructured c0 = obj
                      · rw [if_pos heq]
                        refine .inr (.inl ?_)
                        rw [unmarshal_unstructured_err_shape s data c0 w e post
                          (by rw [heq]; exact hu)]
                      · rw [if_neg heq]
                        exact .inl rfl
                  | none =>
                      dsimp only
                      refine ⟨fun _ => ⟨post, rfl⟩, fun e2 he2 hstr => ?_, fun o ho => ?_,
                        fun c0 hc => ?_⟩
                      · rw [unmarshal_warn_strict s data obj e2 (by rw [hu]; exact he2)] at hstr
                        cases hstr
                      · cases ho
                        exact unmarshal_ok_complete s data obj w post hu
                      · rw [hc]
                        simp only [intoAfterOf]
                        by_cases heq : Obj.unstructured c0 = obj
                        · rw [if_pos heq]
                          rcases unmarshal_unstructured_ok_shape s data c0 w post
                              (by rw [heq]; exact hu) with ⟨m, hm, hlax⟩
                          exact .inr (.inr ⟨m, by rw [hm], hlax⟩)
                        · rw [if_neg heq]
                          exact .inl rfl

/-- C9: every Decode call either returns a fatal error with a nil object or
returns a completely decoded object (possibly alongside the non-fatal strict
warning); a returned object is always the full result of a successful decode
of the input, and a caller-supplied unstructured `into` is only ever left
untouched, zeroed, or holding the complete decoded mapping — never a
partially decoded one. -/
theorem C9_no_partial_objects (s : Serializer) (data : Option CborItem)
    (gvk : Option GroupVersionKind) (into : Option Obj) :
    ((s.Decode data gvk into).err = none → ∃ o, (s.Decode data gvk into).obj = some o)
    ∧ (∀ e, (s.Decode data gvk into).err = some e → e.isStrictDecoding = false →
        (s.Decode data gvk into).obj = none)
    ∧ (∀ o, (s.Decode data gvk into).obj = some o → CompleteFor data o)
    ∧ (∀ c0, into = some (.unstructured c0) →
        (s.Decode data gvk into).intoAfter = some (.unstructured c0)
        ∨ (s.Decode data gvk into).intoAfter = some (.unstructured .null)
        ∨ ∃ m, (s.Decode data gvk into).intoAfter = some (.unstructured m)
            ∧ unmarshalWith modes.DecodeLax data (.mapTy .anyTy) = .ok m) := by
  unfold Serializer.Decode
  cases hmf : s.metaFactory data with
  | error e =>
      dsimp only
      exact ⟨fun h => Option.noConfusion h, fun _ _ _ => rfl, fun o ho => Option.noConfusion ho,
        fun c0 hc => .inl hc⟩
  | ok g0 =>
      dsimp only
      cases into with
      | none =>
          exact ⟨(decodeFinish_props s data _ none).1, (decodeFinish_props s data _ none).2.1,
            (decodeFinish_props s data _ none).2.2.1, fun c0 hc => Option.noConfusion hc⟩
      | some intoObj =>
          cases intoObj with
          | typed f v0 =>
              dsimp only
              cases hty : s.typer (.typed f v0) with
              | error e =>
                  dsimp only
                  exact ⟨fun h => Option.noConfusion h, fun _ _ _ => rfl,
                    fun o ho => Option.noConfusion ho,
                    fun c0 hc => Obj.noConfusion (Option.some.inj hc)⟩
              | ok types =>
                  dsimp only
                  exact ⟨(decodeFinish_props s data _ _).1, (decodeFinish_props s data _ _).2.1,
                    (decodeFinish_props s data _ _).2.2.1,
                    fun c0 hc => Obj.noConfusion (Option.some.inj hc)⟩
          | unstructured c0 =>
              dsimp only
              cases hu : s.unmarshal data (.unstructured c0) with
              | mk w rest =>
                  cases rest with
                  | mk fe post =>
                      cases fe with
                      | some e =>
                          dsimp only
                          refine ⟨fun h => Option.noConfusion h, fun _ _ _ => rfl,
                            fun o ho => Option.noConfusion ho, fun c1 hc => ?_⟩
                          refine .inr (.inl ?_)
                          rw [unmarshal_unstructured_err_shape s data c0 w e post hu]
                      | none =>
                          rcases unmarshal_unstructured_ok_shape s data c0 w post hu
                            with ⟨m, hm, hlax⟩
                          dsimp only
                          by_cases hk : post.objectKindGVK.kind = ""
                          · rw [if_pos hk]
                            exact ⟨fun h => Option.noConfusion h, fun _ _ _ => rfl,
                              fun o ho => Option.noConfusion ho,
                              fun c1 hc => .inr (.inr ⟨m, by rw [hm], hlax⟩)⟩
                          · rw [if_neg hk]
                            by_cases hv : post.objectKindGVK.version = ""
                            · rw [if_pos hv]
                              exact ⟨fun h => Option.noConfusion h, fun _ _ _ => rfl,
                                fun o ho => Option.noConfusion ho,
                                fun c1 hc => .inr (.inr ⟨m, by rw [hm], hlax⟩)⟩
                            · rw [if_neg hv]
                              refine ⟨fun _ => ⟨post, rfl⟩, fun e2 he2 _ => Option.noConfusion he2,
                                fun o ho => ?_, fun c1 hc => .inr (.inr ⟨m, by rw [hm], hlax⟩)⟩
                              cases ho
                              rw [hm]
                              exact hlax

/-- C9 witness: the successful unstructured decode returns an object. -/
theorem C9_no_partial_objects_witness :
    ∃ o, (Serializer.Decode ⟨stubMetaFactoryOk ⟨"", "", ""⟩, stubCreaterErr, stubTyperOk [], false⟩
        (some (.map [(.str "apiVersion", .str "v"), (.str "kind", .str "k")])) none
        (some (.unstructured .null))).obj = some o :=
  (C9_no_partial_objects ⟨stubMetaFactoryOk ⟨"", "", ""⟩, stubCreaterErr, stubTyperOk [], false⟩
      (some (.map [(.str "apiVersion", .str "v"), (.str "kind", .str "k")])) none
      (some (.unstructured .null))).1 (by decide)

/-! ## Struct decode characterization (meta-factory and strict mode) -/

/-- The first value associated with string key `sf` among map entries. -/
def assocKey : List (CborItem × CborItem) → String → Option CborItem
  | [], _ => none
  | (k, v) :: rest, sf => if k = .str sf then some v else assocKey rest sf

/-- The string a map entry value contributes to a string struct field: the
string itself, the empty string for null, nothing for other item kinds
(which fail the decode). -/
def stringFieldSpec : CborItem → Option String
  | .str s => some s
  | .null => some ""
  | _ => none

theorem decodeVal_stringTy_iff (dm : modes.DecOptions) (w : CborItem) (v : Value) :
    decodeVal dm w .stringTy = .ok v ↔ ∃ s2, stringFieldSpec w = some s2 ∧ v = .str s2 := by
  cases w <;> simp [decodeVal, stringFieldSpec, eq_comm]

theorem lookupVal_setField_same (acc : List (String × Value)) (sf : String) (v : Value)
    (h : (lookupVal acc sf).isSome) : lookupVal (setField acc sf v) sf = some v := by
  induction acc with
  | nil => simp [lookupVal] at h
  | cons p rest ih =>
      obtain ⟨k, w⟩ := p
      by_cases hk : k = sf
      · subst hk
        simp [setField, lookupVal]
      · simp only [setField, lookupVal, if_neg hk] at h ⊢
        exact ih h

theorem lookupVal_setField_other (acc : List (String × Value)) (s sf : String) (v : Value)
    (h : s ≠ sf) : lookupVal (setField acc s v) sf = lookupVal acc sf := by
  induction acc with
  | nil => simp [setField, lookupVal]
  | cons p rest ih =>
      obtain ⟨k, w⟩ := p
      by_cases hk : k = s
      · subst hk
        simp only [setField, if_pos rfl, lookupVal]
        rw [if_neg h, if_neg h]
      · simp only [setField, if_neg hk, lookupVal]
        by_cases hks : k = sf
        · rw [if_pos hks, if_pos hks]
        · rw [if_neg hks, if_neg hks]
          exact ih

theorem lookupVal_setField_isSome (acc : List (String × Value)) (s sf : String) (v : Value) :
    (lookupVal (setField acc s v) sf).isSome = (lookupVal acc sf).isSome := by
  by_cases hs : s = sf
  · subst hs
    by_cases h : (lookupVal acc s).isSome
    · rw [lookupVal_setField_same acc s v h, h]; rfl
    · induction acc with
      | nil => simp [setField]
      | cons p rest ih =>
          obtain ⟨k, w⟩ := p
          by_cases hk : k = s
          · subst hk
            simp [lookupVal] at h
          · simp only [setField, if_neg hk, lookupVal, if_neg hk] at h ⊢
            exact ih h
  · rw [lookupVal_setField_other acc s sf v hs]

theorem lookupVal_zeroFields (fields : List (String × DestTy)) (sf : String) (t : DestTy)
    (h : lookupField fields sf = some t) :
    lookupVal (zeroFields fields) sf = some (zeroVal t) := by
  induction fields with
  | nil => simp [lookupField] at h
  | cons p rest ih =>
      obtain ⟨k, ft⟩ := p
      by_cases hk : k = sf
      · subst hk
        simp only [lookupField, if_pos rfl] at h
        cases h
        simp [zeroFields, lookupVal]
      · simp only [lookupField, if_neg hk] at h
        simp only [zeroFields, lookupVal, if_neg hk]
        exact ih h

/-- Once a string key has been seen, a successful struct decode cannot
change that field again (a second entry with the same key is a duplicate-key
error). -/
theorem decodeStruct_lookup_of_seen (dm : modes.DecOptions) (fields : List (String × DestTy))
    (sf : String) :
    ∀ (entries : List (CborItem × CborItem)) (seen : List CborItem) (idx : Nat)
      (acc out : List (String × Value)),
      CborItem.str sf ∈ seen →
      decodeStruct dm entries fields seen idx acc = .ok out →
      lookupVal out sf = lookupVal acc sf
  | [], seen, idx, acc, out, _, h => by
      simp only [decodeStruct] at h
      cases h
      rfl
  | (k, w) :: rest, seen, idx, acc, out, hsf, h => by
      simp only [decodeStruct] at h
      by_cases hk : k ∈ seen
      · rw [if_pos hk] at h; exact Except.noConfusion h
      · rw [if_neg hk] at h
        have hssf : k = CborItem.str sf → False := fun hc => hk (hc ▸ hsf)
        cases k with
        | str s =>
            dsimp only at h
            have hs : s ≠ sf := fun hc => hssf (by rw [hc])
            cases hf : lookupField fields s with
            | some ft =>
                rw [hf] at h
                dsimp only at h
                cases hd : decodeVal dm w ft with
                | error e => rw [hd] at h; exact Except.noConfusion h
                | ok fv =>
                    rw [hd] at h
                    have := decodeStruct_lookup_of_seen dm fields sf rest
                      (.str s :: seen) (idx + 1) (setField acc s fv) out
                      (List.mem_cons_of_mem _ hsf) h
                    rw [this, lookupVal_setField_other acc s sf fv hs]
            | none =>
                rw [hf] at h
                dsimp only at h
                by_cases hfl : dm.extraDecErrorUnknownField
                · rw [if_pos hfl] at h; exact Except.noConfusion h
                · rw [if_neg hfl] at h
                  exact decodeStruct_lookup_of_seen dm fields sf rest
                    (.str s :: seen) (idx + 1) acc out (List.mem_cons_of_mem _ hsf) h
        | int n =>
            dsimp only at h
            by_cases hfl : dm.extraDecErrorUnknownField
            · rw [if_pos hfl] at h; exact Except.noConfusion h
            · rw [if_neg hfl] at h
              exact decodeStruct_lookup_of_seen dm fields sf rest
                (.int n :: seen) (idx + 1) acc out (List.mem_cons_of_mem _ hsf) h
        | bool b =>
            dsimp only at h
            by_cases hfl : dm.extraDecErrorUnknownField
            · rw [if_pos hfl] at h; exact Except.noConfusion h
            · rw [if_neg hfl] at h
              exact decodeStruct_lookup_of_seen dm fields sf rest
                (.bool b :: seen) (idx + 1) acc out (List.mem_cons_of_mem _ hsf) h
        | null =>
            dsimp only at h
            by_cases hfl : dm.extraDecErrorUnknownField
            · rw [if_pos hfl] at h; exact Except.noConfusion h
            · rw [if_neg hfl] at h
              exact decodeStruct_lookup_of_seen dm fields sf rest
                (.null :: seen) (idx + 1) acc out (List.mem_cons_of_mem _ hsf) h
        | float bits =>
            dsimp only at h
            by_cases hfl : dm.extraDecErrorUnknownField
            · rw [if_pos hfl] at h; exact Except.noConfusion h
            · rw [if_neg hfl] at h
              exact decodeStruct_lookup_of_seen dm fields sf rest
                (.float bits :: seen) (idx + 1) acc out (List.mem_cons_of_mem _ hsf) h
        | array xs =>
            dsimp only at h
            by_cases hfl : dm.extraDecErrorUnknownField
            · rw [if_pos hfl] at h; exact Except.noConfusion h
            · rw [if_neg hfl] at h
              exact decodeStruct_lookup_of_seen dm fields sf rest
                (.array xs :: seen) (idx + 1) acc out (List.mem_cons_of_mem _ hsf) h
        | map m =>
            dsimp only at h
            by_cases hfl : dm.extraDecErrorUnknownField
            · rw [if_pos hfl] at h; exact Except.noConfusion h
            · rw [if_neg hfl] at h
              exact decodeStruct_lookup_of_seen dm fields sf rest
                (.map m :: seen) (idx + 1) acc out (List.mem_cons_of_mem _ hsf) h

/-- What a successful struct decode stores in a string field: the first map
entry carrying that key determines the field (string content, or empty
string for null); with no such entry the field keeps its prior value. -/
theorem decodeStruct_lookup_string (dm : modes.DecOptions) (fields : List (String × DestTy))
    (sf : String) (hsf : lookupField fields sf = some .stringTy) :
    ∀ (entries : List (CborItem × CborItem)) (seen : List CborItem) (idx : Nat)
      (acc out : List (String × Value)),
      CborItem.str sf ∉ seen →
      (lookupVal acc sf).isSome →
      decodeStruct dm entries fields seen idx acc = .ok out →
      (match assocKey entries sf with
        | none => lookupVal out sf = lookupVal acc sf
        | some w => ∃ s2, stringFieldSpec w = some s2 ∧ lookupVal out sf = some (.str s2))
  | [], seen, idx, acc, out, _, _, h => by
      simp only [decodeStruct] at h
      cases h
      simp only [assocKey]
  | (k, w) :: rest, seen, idx, acc, out, hnot, hsome, h => by
      simp only [decodeStruct] at h
      by_cases hk : k ∈ seen
      · rw [if_pos hk] at h; exact Except.noConfusion h
      · rw [if_neg hk] at h
        cases k with
        | str s =>
            dsimp only at h
            by_cases hssf : s = sf
            · subst hssf
              rw [hsf] at h
              dsimp only at h
              cases hd : decodeVal dm w .stringTy with
              | error e => rw [hd] at h; exact Except.noConfusion h
              | ok fv =>
                  rw [hd] at h
                  rcases (decodeVal_stringTy_iff dm w fv).1 hd with ⟨s2, hspec, hfv⟩
                  simp only [assocKey, if_pos rfl]
                  refine ⟨s2, hspec, ?_⟩
                  rw [decodeStruct_lookup_of_seen dm fields s rest (.str s :: seen) (idx + 1)
                    (setField acc s fv) out (List.mem_cons_self _ _) h]
                  rw [lookupVal_setField_same acc s fv hsome, hfv]
            · have hkey : assocKey ((CborItem.str s, w) :: rest) sf = assocKey rest sf := by
                simp only [assocKey]
                rw [if_neg (fun hc => hssf (CborItem.str.inj hc))]
              rw [hkey]
              cases hf : lookupField fields s with
              | some ft =>
                  rw [hf] at h
                  dsimp only at h
                  cases hd : decodeVal dm w ft with
                  | error e => rw [hd] at h; exact Except.noConfusion h
                  | ok fv =>
                      rw [hd] at h
                      have hrec := decodeStruct_lookup_string dm fields sf hsf rest
                        (.str s :: seen) (idx + 1) (setField acc s fv) out
                        (by
                          intro hmem
                          rcases List.mem_cons.1 hmem with hc | hc
                          · exact hssf (CborItem.str.inj hc.symm)
                          · exact hnot hc)
                        (by rw [lookupVal_setField_isSome]; exact hsome) h
                      cases ha : assocKey rest sf with
                      | none =>
                          rw [ha] at hrec
                          simp only
                          rw [hrec, lookupVal_setField_other acc s sf fv hssf]
                      | some w2 =>
                          rw [ha] at hrec
                          exact hrec
              | none =>
                  rw [hf] at h
                  dsimp only at h
                  by_cases hfl : dm.extraDecErrorUnknownField
                  · rw [if_pos hfl] at h; exact Except.noConfusion h
                  · rw [if_neg hfl] at h
                    exact decodeStruct_lookup_string dm fields sf hsf rest
                      (.str s :: seen) (idx + 1) acc out
                      (by
                        intro hmem
                        rcases List.mem_cons.1 hmem with hc | hc
                        · exact hssf (CborItem.str.inj hc.symm)
                        · exact hnot hc)
                      hsome h
        | int n =>
            dsimp only at h
            by_cases hfl : dm.extraDecErrorUnknownField
            · rw [if_pos hfl] at h; exact Except.noConfusion h
            · rw [if_neg hfl] at h
              have hkey : assocKey ((CborItem.int n, w) :: rest) sf = assocKey rest sf := by
                simp [assocKey]
              rw [hkey]
              exact decodeStruct_lookup_string dm fields sf hsf rest
                (.int n :: seen) (idx + 1) acc out
                (by
                  intro hmem
                  rcases List.mem_cons.1 hmem with hc | hc
                  · exact CborItem.noConfusion hc
                  · exact hnot hc)
                hsome h
        | bool b =>
            dsimp only at h
            by_cases hfl : dm.extraDecErrorUnknownField
            · rw [if_pos hfl] at h; exact Except.noConfusion h
            · rw [if_neg hfl] at h
              have hkey : assocKey ((CborItem.bool b, w) :: rest) sf = assocKey rest sf := by
                simp [assocKey]
              rw [hkey]
              exact decodeStruct_lookup_string dm fields sf hsf rest
                (.bool b :: seen) (idx + 1) acc out
                (by
                  intro hmem
                  rcases List.mem_cons.1 hmem with hc | hc
                  · exact CborItem.noConfusion hc
                  · exact hnot hc)
                hsome h
        | null =>
            dsimp only at h
            by_cases hfl : dm.extraDecErrorUnknownField
            · rw [if_pos hfl] at h; exact Except.noConfusion h
            · rw [if_neg hfl] at h
              have hkey : assocKey ((CborItem.null, w) :: rest) sf = assocKey rest sf := by
                simp [assocKey]
              rw [hkey]
              exact decodeStruct_lookup_string dm fields sf hsf rest
                (.null :: seen) (idx + 1) acc out
                (by
                  intro hmem
                  rcases List.mem_cons.1 hmem with hc | hc
                  · exact CborItem.noConfusion hc
                  · exact hnot hc)
                hsome h
        | float bits =>
            dsimp only at h
            by_cases hfl : dm.extraDecErrorUnknownField
            · rw [if_pos hfl] at h; exact Except.noConfusion h
            · rw [if_neg hfl] at h
              have hkey : assocKey ((CborItem.float bits, w) :: rest) sf = assocKey rest sf := by
                simp [assocKey]
              rw [hkey]
              exact decodeStruct_lookup_string dm fields sf hsf rest
                (.float bits :: seen) (idx + 1) acc out
                (by
                  intro hmem
                  rcases List.mem_cons.1 hmem with hc | hc
                  · exact CborItem.noConfusion hc
                  · exact hnot hc)
                hsome h
        | array xs =>
            dsimp only at h
            by_cases hfl : dm.extraDecErrorUnknownField
            · rw [if_pos hfl] at h; exact Except.noConfusion h
            · rw [if_neg hfl] at h
              have hkey : assocKey ((CborItem.array xs, w) :: rest) sf = assocKey rest sf := by
                simp [assocKey]
              rw [hkey]
              exact decodeStruct_lookup_string dm fields sf hsf rest
                (.array xs :: seen) (idx + 1) acc out
                (by
                  intro hmem
                  rcases List.mem_cons.1 hmem with hc | hc
                  · exact CborItem.noConfusion hc
                  · exact hnot hc)
                hsome h
        | map m =>
            dsimp only at h
            by_cases hfl : dm.extraDecErrorUnknownField
            · rw [if_pos hfl] at h; exact Except.noConfusion h
            · rw [if_neg hfl] at h
              have hkey : assocKey ((CborItem.map m, w) :: rest) sf = assocKey rest sf := by
                simp [assocKey]
              rw [hkey]
              exact decodeStruct_lookup_string dm fields sf hsf rest
                (.map m :: seen) (idx + 1) acc out
                (by
                  intro hmem
                  rcases List.mem_cons.1 hmem with hc | hc
                  · exact CborItem.noConfusion hc
                  · exact hnot hc)
                hsome h

/-! ## Claim C7 — meta-factory Interpret -/

/-- The string contributed by the first map entry with the given key: the
entry's string content, the empty string when the entry is null or absent. -/
def strEntryOr (entries : List (CborItem × CborItem)) (sf : String) : String :=
  match assocKey entries sf with
  | some w => (stringFieldSpec w).getD ""
  | none => ""

/-- C7: the meta-factory's Interpret fails with the cannot-determine-GVK
error on malformed bytes and on any payload that is not a map; on a map it
returns exactly the GVK derived from the top-level apiVersion and kind
entries, ignoring all other fields. -/
theorem C7_meta_factory_interpret :
    (defaultMetaFactoryInterpret none = .error .gvkInterpret)
    ∧ (∀ item : CborItem, (∀ kvs, item ≠ .map kvs) →
        defaultMetaFactoryInterpret (some item) = .error .gvkInterpret)
    ∧ (∀ entries g, defaultMetaFactoryInterpret (some (.map entries)) = .ok g →
        g = fromAPIVersionAndKind (strEntryOr entries "apiVersion")
              (strEntryOr entries "kind")) := by
  refine ⟨rfl, fun item hitem => ?_, fun entries g h => ?_⟩
  · cases item with
    | map kvs => exact absurd rfl (hitem kvs)
    | int n => rfl
    | str s => rfl
    | array xs => rfl
    | bool b => rfl
    | null => rfl
    | float bits => rfl
  · unfold defaultMetaFactoryInterpret at h
    cases hu : unmarshalWith modes.DecodeLax (some (.map entries)) typeMetaTy with
    | error e => rw [hu] at h; exact Except.noConfusion h
    | ok tm =>
        rw [hu] at h
        have hg := (Except.ok.inj h).symm
        rw [unmarshalWith] at hu
        simp only [typeMetaTy, decodeVal] at hu
        cases hds : decodeStruct modes.DecodeLax entries
            [("apiVersion", .stringTy), ("kind", .stringTy)] [] 0
            (zeroFields [("apiVersion", .stringTy), ("kind", .stringTy)]) with
        | error e => rw [hds] at hu; exact Except.noConfusion hu
        | ok fs =>
            rw [hds] at hu
            cases hu
            have hav := decodeStruct_lookup_string modes.DecodeLax
              [("apiVersion", .stringTy), ("kind", .stringTy)] "apiVersion" (by decide)
              entries [] 0 _ fs (by simp) (by decide) hds
            have hki := decodeStruct_lookup_string modes.DecodeLax
              [("apiVersion", .stringTy), ("kind", .stringTy)] "kind" (by decide)
              entries [] 0 _ fs (by simp) (by decide) hds
            have hav2 : getStringField (.obj fs) "apiVersion" = strEntryOr entries "apiVersion" := by
              unfold strEntryOr
              cases ha : assocKey entries "apiVersion" with
              | none =>
                  rw [ha] at hav
                  simp only at hav
                  simp only [getStringField, hav]
                  decide
              | some w =>
                  rw [ha] at hav
                  rcases hav with ⟨s2, hspec, hl⟩
                  simp only [getStringField, hl, hspec, Option.getD]
            have hki2 : getStringField (.obj fs) "kind" = strEntryOr entries "kind" := by
              unfold strEntryOr
              cases ha : assocKey entries "kind" with
              | none =>
                  rw [ha] at hki
                  simp only at hki
                  simp only [getStringField, hki]
                  decide
              | some w =>
                  rw [ha] at hki
                  rcases hki with ⟨s2, hspec, hl⟩
                  simp only [getStringField, hl, hspec, Option.getD]
            rw [hg, hav2, hki2]

/-- C7 witness: interpreting {"apiVersion": "a/b", "kind": "c", "other": 1}
yields GVK {a, b, c} (the extra entry is ignored), and interpreting a
non-map payload fails. -/
theorem C7_meta_factory_interpret_witness :
    (defaultMetaFactoryInterpret (some (.int 5)) = .error .gvkInterpret)
    ∧ GroupVersionKind.mk "a" "b" "c"
        = fromAPIVersionAndKind
            (strEntryOr [(.str "apiVersion", .str "a/b"), (.str "kind", .str "c"),
              (.str "other", .int 1)] "apiVersion")
            (strEntryOr [(.str "apiVersion", .str "a/b"), (.str "kind", .str "c"),
              (.str "other", .int 1)] "kind") :=
  ⟨C7_meta_factory_interpret.2.1 (.int 5) (fun kvs h => CborItem.noConfusion h),
    C7_meta_factory_interpret.2.2
      [(.str "apiVersion", .str "a/b"), (.str "kind", .str "c"), (.str "other", .int 1)]
      ⟨"a", "b", "c"⟩ (by decide)⟩

/-! ## Claim C1 — strict mode warning with populated object -/

/-- The index of the first map entry whose key does not name a field of the
destination struct (the entry the strict mode reports). -/
def firstUnknown (fields : List (String × DestTy)) : List (CborItem × CborItem) → Option Nat
  | [] => none
  | (k, _) :: rest =>
      match k with
      | .str s =>
          match lookupField fields s with
          | some _ => (firstUnknown fields rest).map (fun n => n + 1)
          | none => some 0
      | _ => some 0

theorem lookupField_mem (fields : List (String × DestTy)) (s : String) (ft : DestTy)
    (h : lookupField fields s = some ft) : (s, ft) ∈ fields := by
  induction fields with
  | nil => simp [lookupField] at h
  | cons p rest ih =>
      obtain ⟨k, t⟩ := p
      by_cases hk : k = s
      · subst hk
        simp only [lookupField, if_pos rfl] at h
        cases h
        exact List.mem_cons_self _ _
      · simp only [lookupField, if_neg hk] at h
        exact List.mem_cons_of_mem _ (ih h)

/-- When the lax decode of map entries into a flat struct succeeds, the
strict decode returns the identical result if every key names a field, and
fails with the unknown-field error at the first entry whose key does not. -/
theorem decodeStruct_strict_of_lax (fields : List (String × DestTy))
    (hfree : ∀ p ∈ fields, structFree p.2 = true) :
    ∀ (entries : List (CborItem × CborItem)) (seen : List CborItem) (idx : Nat)
      (acc out : List (String × Value)),
      decodeStruct modes.DecodeLax entries fields seen idx acc = .ok out →
      (match firstUnknown fields entries with
        | none => decodeStruct modes.Decode entries fields seen idx acc = .ok out
        | some j => decodeStruct modes.Decode entries fields seen idx acc
            = .error (.unknownField (idx + j)))
  | [], seen, idx, acc, out, h => by
      simp only [decodeStruct] at h
      cases h
      simp only [firstUnknown, decodeStruct]
  | (k, w) :: rest, seen, idx, acc, out, h => by
      simp only [decodeStruct] at h ⊢
      by_cases hk : k ∈ seen
      · rw [if_pos hk] at h; exact Except.noConfusion h
      · rw [if_neg hk] at h
        rw [if_neg hk]
        cases k with
        | str s =>
            dsimp only at h ⊢
            cases hf : lookupField fields s with
            | some ft =>
                rw [hf] at h
                dsimp only at h ⊢
                simp only [firstUnknown, hf]
                cases hd : decodeVal modes.DecodeLax w ft with
                | error e => rw [hd] at h; exact Except.noConfusion h
                | ok fv =>
                    rw [hd] at h
                    rw [decodeVal_structFree w ft (hfree (s, ft) (lookupField_mem fields s ft hf)),
                      hd]
                    have hrec := decodeStruct_strict_of_lax fields hfree rest
                      (.str s :: seen) (idx + 1) (setField acc s fv) out h
                    cases hfu : firstUnknown fields rest with
                    | none =>
                        rw [hfu] at hrec
                        simp only [Option.map_none']
                        exact hrec
                    | some j =>
                        rw [hfu] at hrec
                        dsimp only at hrec
                        simp only [Option.map_some']
                        show decodeStruct modes.Decode rest fields (.str s :: seen) (idx + 1)
                            (setField acc s fv) = Except.error (.unknownField (idx + (j + 1)))
                        rw [hrec]
                        have harith : idx + 1 + j = idx + (j + 1) := by omega
                        rw [harith]
            | none =>
                dsimp only at h ⊢
                simp only [firstUnknown, hf]
                simp [modes.Decode]
        | int n =>
            dsimp only at h ⊢
            simp only [firstUnknown]
            simp [modes.Decode]
        | bool b =>
            dsimp only at h ⊢
            simp only [firstUnknown]
            simp [modes.Decode]
        | null =>
            dsimp only at h ⊢
            simp only [firstUnknown]
            simp [modes.Decode]
        | float bits =>
            dsimp only at h ⊢
            simp only [firstUnknown]
            simp [modes.Decode]
        | array xs =>
            dsimp only at h ⊢
            simp only [firstUnknown]
            simp [modes.Decode]
        | map m =>
            dsimp only at h ⊢
            simp only [firstUnknown]
            simp [modes.Decode]


/-- Lifting the strict/lax struct characterization to whole map items. -/
theorem decodeVal_struct_strict_unknown (fields : List (String × DestTy))
    (entries : List (CborItem × CborItem)) (vLax : Value) (j : Nat)
    (hfree : ∀ p ∈ fields, structFree p.2 = true)
    (hlax : decodeVal modes.DecodeLax (.map entries) (.structTy fields) = .ok vLax)
    (hunk : firstUnknown fields entries = some j) :
    decodeVal modes.Decode (.map entries) (.structTy fields)
      = .error (.unknownField j) := by
  simp only [decodeVal] at hlax ⊢
  cases hds : decodeStruct modes.DecodeLax entries fields [] 0 (zeroFields fields) with
  | error e => rw [hds] at hlax; exact Except.noConfusion hlax
  | ok fs =>
      have hc := decodeStruct_strict_of_lax fields hfree entries [] 0 (zeroFields fields) fs hds
      rw [hunk] at hc
      dsimp only at hc
      have hc2 : decodeStruct modes.Decode entries fields [] 0 (zeroFields fields)
          = .error (.unknownField j) := by rw [hc]; simp
      rw [hc2]
      rfl

/-- C1: with the strict option, decoding an input that carries a map key
with no corresponding destination field returns the non-fatal
StrictDecodingError warning for that key together with the object populated
by repeating the decode in lax mode; the serializer without the strict
option returns the same populated object with no error. -/
theorem C1_strict_unknown_field (mf : Option CborItem → Except SerErr GroupVersionKind)
    (cr : GroupVersionKind → Except SerErr Obj)
    (ty : Obj → Except SerErr (List GroupVersionKind))
    (entries : List (CborItem × CborItem)) (fields : List (String × DestTy))
    (v0 vLax : Value) (g0 gT : GroupVersionKind) (j : Nat)
    (hmf : mf (some (.map entries)) = .ok g0)
    (hty : ty (.typed fields v0) = .ok [gT])
    (hag : gvkWithDefaults g0 gT = gT)
    (hkind : ¬gT.kind = "") (hver : ¬gT.version = "")
    (hfree : ∀ p ∈ fields, structFree p.2 = true)
    (hlax : decodeVal modes.DecodeLax (.map entries) (.structTy fields) = .ok vLax)
    (hunk : firstUnknown fields entries = some j) :
    Serializer.Decode ⟨mf, cr, ty, true⟩ (some (.map entries)) none
        (some (.typed fields v0))
      = ⟨some (.typed fields vLax), some gT,
          some (.strictDecoding [.unknownField j]), some (.typed fields vLax)⟩
    ∧ Serializer.Decode ⟨mf, cr, ty, false⟩ (some (.map entries)) none
        (some (.typed fields v0))
      = ⟨some (.typed fields vLax), some gT, none, some (.typed fields vLax)⟩ := by
  have hlaxU : unmarshalWith modes.DecodeLax (some (.map entries)) (.structTy fields)
      = .ok vLax := hlax
  have hstr : unmarshalWith modes.Decode (some (.map entries)) (.structTy fields)
      = .error (.unknownField j) :=
    decodeVal_struct_strict_unknown fields entries vLax j hfree hlax hunk
  constructor
  · have hraw : Serializer.unmarshalRaw ⟨mf, cr, ty, true⟩ (some (.map entries))
        (.structTy fields)
        = (some (.strictDecoding [.unknownField j]), .ok vLax) := by
      unfold Serializer.unmarshalRaw
      simp only [hstr, hlaxU, Except.mapError, Bool.not_true, Bool.false_eq_true, if_false]
    have hum : Serializer.unmarshal ⟨mf, cr, ty, true⟩ (some (.map entries))
        (.typed fields v0)
        = (some (.strictDecoding [.unknownField j]), none, .typed fields vLax) := by
      simp only [Serializer.unmarshal, hraw]
    unfold Serializer.Decode
    dsimp only
    rw [hmf]
    dsimp only
    rw [hty]
    dsimp only [List.headD]
    rw [hag]
    unfold Serializer.decodeFinish
    dsimp only
    rw [if_neg hkind, if_neg hver]
    have huse : useOrCreateObject ty cr gT (some (.typed fields v0))
        = .ok (.typed fields v0) := by
      unfold useOrCreateObject
      dsimp only
      rw [hty]
      simp
    rw [huse]
    dsimp only
    rw [hum]
    simp [intoAfterOf]
  · have hraw : Serializer.unmarshalRaw ⟨mf, cr, ty, false⟩ (some (.map entries))
        (.structTy fields) = (none, .ok vLax) := by
      unfold Serializer.unmarshalRaw
      simp only [hlaxU, Except.mapError, Bool.not_false, if_true]
    have hum : Serializer.unmarshal ⟨mf, cr, ty, false⟩ (some (.map entries))
        (.typed fields v0) = (none, none, .typed fields vLax) := by
      simp only [Serializer.unmarshal, hraw]
    unfold Serializer.Decode
    dsimp only
    rw [hmf]
    dsimp only
    rw [hty]
    dsimp only [List.headD]
    rw [hag]
    unfold Serializer.decodeFinish
    dsimp only
    rw [if_neg hkind, if_neg hver]
    have huse : useOrCreateObject ty cr gT (some (.typed fields v0))
        = .ok (.typed fields v0) := by
      unfold useOrCreateObject
      dsimp only
      rw [hty]
      simp
    rw [huse]
    dsimp only
    rw [hum]
    simp [intoAfterOf]

/-- Witness for C1 at the scenario of the strict-mode unit test: a single
unrecognised key "z" against a destination carrying one string field "f". -/
theorem C1_strict_unknown_field_witness :
    Serializer.Decode
        ⟨fun _ => .ok ⟨"x", "y", "z"⟩, fun _ => .error (.otherError "unused"),
          fun _ => .ok [⟨"x", "y", "z"⟩], true⟩
        (some (.map [(.str "z", .int 1)])) none
        (some (.typed [("f", .stringTy)] .null))
      = ⟨some (.typed [("f", .stringTy)] (.obj [("f", .str "")])),
          some ⟨"x", "y", "z"⟩,
          some (.strictDecoding [.unknownField 0]),
          some (.typed [("f", .stringTy)] (.obj [("f", .str "")]))⟩
    ∧ Serializer.Decode
        ⟨fun _ => .ok ⟨"x", "y", "z"⟩, fun _ => .error (.otherError "unused"),
          fun _ => .ok [⟨"x", "y", "z"⟩], false⟩
        (some (.map [(.str "z", .int 1)])) none
        (some (.typed [("f", .stringTy)] .null))
      = ⟨some (.typed [("f", .stringTy)] (.obj [("f", .str "")])),
          some ⟨"x", "y", "z"⟩, none,
          some (.typed [("f", .stringTy)] (.obj [("f", .str "")]))⟩ :=
  C1_strict_unknown_field _ _ _ _ _ _ _ _ _ _
    rfl rfl (by decide) (by decide) (by decide) (by decide) (by decide) (by decide)

/-! ## Polymorphic union codecs (marshal.go, src/unnamed/part_000) -/

theorem charEq_of_nat {a b : Char} (h : a.toNat = b.toNat) : a = b := by
  apply Char.ext
  apply UInt32.ext
  simpa [Char.toNat, UInt32.toNat] using h

theorem stringEq_of_data {a b : String} (h : a.data = b.data) : a = b := by
  cases a; cases b; exact congrArg String.mk h

theorem charListLE_total : ∀ as bs, charListLE as bs = true ∨ charListLE bs as = true
  | [], _ => .inl rfl
  | _ :: _, [] => .inr rfl
  | a :: as, b :: bs => by
      by_cases h1 : a.toNat < b.toNat
      · exact .inl (by simp [charListLE, h1])
      · by_cases h2 : b.toNat < a.toNat
        · exact .inr (by simp [charListLE, h1, h2, Nat.lt_asymm h2])
        · rcases charListLE_total as bs with h | h
          · exact .inl (by simp [charListLE, h1, h2, h])
          · exact .inr (by simp [charListLE, h1, h2, h])

theorem charListLE_trans : ∀ as bs cs, charListLE as bs = true → charListLE bs cs = true →
    charListLE as cs = true
  | [], _, _, _, _ => rfl
  | _ :: _, [], _, h1, _ => by simp [charListLE] at h1
  | _ :: _, _ :: _, [], _, h2 => by simp [charListLE] at h2
  | a :: as, b :: bs, c :: cs, h1, h2 => by
      simp only [charListLE] at h1 h2 ⊢
      by_cases hab : a.toNat < b.toNat
      · by_cases hbc : b.toNat < c.toNat
        · simp [Nat.lt_trans hab hbc]
        · simp only [if_neg hbc] at h2
          by_cases hcb : c.toNat < b.toNat
          · simp [if_pos hcb] at h2
          · have hbce : b.toNat = c.toNat :=
              Nat.le_antisymm (Nat.not_lt.mp hcb) (Nat.not_lt.mp hbc)
            simp [hbce ▸ hab]
      · simp only [if_neg hab] at h1
        by_cases hba : b.toNat < a.toNat
        · simp [if_pos hba] at h1
        · have habe : a.toNat = b.toNat :=
            Nat.le_antisymm (Nat.not_lt.mp hba) (Nat.not_lt.mp hab)
          simp only [if_neg hba] at h1
          by_cases hbc : b.toNat < c.toNat
          · simp [habe ▸ hbc]
          · simp only [if_neg hbc] at h2
            by_cases hcb : c.toNat < b.toNat
            · simp [if_pos hcb] at h2
            · have hbce : b.toNat = c.toNat :=
                Nat.le_antisymm (Nat.not_lt.mp hcb) (Nat.not_lt.mp hbc)
              rw [if_neg hcb] at h2
              rw [if_neg (by omega : ¬a.toNat < c.toNat),
                if_neg (by omega : ¬c.toNat < a.toNat)]
              exact charListLE_trans as bs cs h1 h2

theorem charListLE_antisymm : ∀ as bs, charListLE as bs = true → charListLE bs as = true →
    as = bs
  | [], [], _, _ => rfl
  | [], _ :: _, _, h2 => by simp [charListLE] at h2
  | _ :: _, [], h1, _ => by simp [charListLE] at h1
  | a :: as, b :: bs, h1, h2 => by
      simp only [charListLE] at h1 h2
      by_cases hab : a.toNat < b.toNat
      · rw [if_neg (Nat.lt_asymm hab), if_pos hab] at h2
        exact Bool.noConfusion h2
      · by_cases hba : b.toNat < a.toNat
        · rw [if_neg hab, if_pos hba] at h1
          exact Bool.noConfusion h1
        · rw [if_neg hab, if_neg hba] at h1
          rw [if_neg hba, if_neg hab] at h2
          have he : a = b :=
            charEq_of_nat (Nat.le_antisymm (Nat.not_lt.mp hba) (Nat.not_lt.mp hab))
          rw [he, charListLE_antisymm as bs h1 h2]

theorem strLE_total (a b : String) : strLE a b = true ∨ strLE b a = true :=
  charListLE_total _ _

theorem strLE_trans {a b c : String} (h1 : strLE a b = true) (h2 : strLE b c = true) :
    strLE a c = true :=
  charListLE_trans _ _ _ h1 h2

theorem strLE_antisymm {a b : String} (h1 : strLE a b = true) (h2 : strLE b a = true) :
    a = b :=
  stringEq_of_data (charListLE_antisymm _ _ h1 h2)

theorem keyCanonLE_total (a b : String) : keyCanonLE a b ∨ keyCanonLE b a := by
  unfold keyCanonLE
  rcases Nat.lt_trichotomy (strByteLen a) (strByteLen b) with h | h | h
  · exact .inl (.inl h)
  · rcases strLE_total a b with hs | hs
    · exact .inl (.inr ⟨h, hs⟩)
    · exact .inr (.inr ⟨h.symm, hs⟩)
  · exact .inr (.inl h)

theorem keyCanonLE_trans {a b c : String} (h1 : keyCanonLE a b) (h2 : keyCanonLE b c) :
    keyCanonLE a c := by
  unfold keyCanonLE at h1 h2 ⊢
  rcases h1 with h1 | ⟨e1, s1⟩
  · rcases h2 with h2 | ⟨e2, _⟩
    · exact .inl (Nat.lt_trans h1 h2)
    · exact .inl (e2 ▸ h1)
  · rcases h2 with h2 | ⟨e2, s2⟩
    · exact .inl (e1 ▸ h2)
    · exact .inr ⟨e1.trans e2, strLE_trans s1 s2⟩

theorem keyCanonLE_antisymm {a b : String} (h1 : keyCanonLE a b) (h2 : keyCanonLE b a) :
    a = b := by
  unfold keyCanonLE at h1 h2
  rcases h1 with h1 | ⟨e1, s1⟩
  · rcases h2 with h2 | ⟨e2, _⟩
    · omega
    · omega
  · rcases h2 with h2 | ⟨_, s2⟩
    · omega
    · exact strLE_antisymm s1 s2

instance : IsTotal (String × Value) (fun x y => keyCanonLE x.1 y.1) :=
  ⟨fun a b => keyCanonLE_total a.1 b.1⟩

instance : IsTrans (String × Value) (fun x y => keyCanonLE x.1 y.1) :=
  ⟨fun _ _ _ => keyCanonLE_trans⟩

instance : IsTotal (String × CborItem) (fun x y => keyCanonLE x.1 y.1) :=
  ⟨fun a b => keyCanonLE_total a.1 b.1⟩

instance : IsTrans (String × CborItem) (fun x y => keyCanonLE x.1 y.1) :=
  ⟨fun _ _ _ => keyCanonLE_trans⟩

instance : IsTotal (String × Value) (fun x y => strLE x.1 y.1 = true) :=
  ⟨fun a b => strLE_total a.1 b.1⟩

instance : IsTrans (String × Value) (fun x y => strLE x.1 y.1 = true) :=
  ⟨fun _ _ _ => strLE_trans⟩

mutual

/-- Data-item-level canonical CBOR marshalling of an untyped value
(`cbor.Marshal` composed with parsing the produced bytes): integers, strings,
booleans, null and floats map to the corresponding items, arrays map
elementwise, and map entries are sorted by the canonical ordering of their
keys (which for text keys coincides with the byte-level length-first
ordering used by `encodeValue`). -/
def valueToCbor : Value → CborItem
  | .int n => .int n
  | .str s => .str s
  | .bool b => .bool b
  | .null => .null
  | .float bits => .float bits
  | .arr xs => .array (valueToCborList xs)
  | .obj kvs =>
      .map (((valueToCborPairs kvs).insertionSort fun x y => keyCanonLE x.1 y.1).map
        fun p => (CborItem.str p.1, p.2))

def valueToCborList : List Value → List CborItem
  | [] => []
  | x :: xs => valueToCbor x :: valueToCborList xs

def valueToCborPairs : List (String × Value) → List (String × CborItem)
  | [] => []
  | (k, v) :: rest => (k, valueToCbor v) :: valueToCborPairs rest

end

mutual

/-- The value denoted by JSON bytes produced by `json.Marshal` from an
untyped value: object keys are emitted in sorted order (Go's
`encoding/json` sorts map keys lexicographically by their bytes). -/
def sortJson : Value → Value
  | .arr xs => .arr (sortJsonList xs)
  | .obj kvs => .obj ((sortJsonPairs kvs).insertionSort fun x y => strLE x.1 y.1 = true)
  | v => v

def sortJsonList : List Value → List Value
  | [] => []
  | x :: xs => sortJson x :: sortJsonList xs

def sortJsonPairs : List (String × Value) → List (String × Value)
  | [] => []
  | (k, v) :: rest => (k, sortJson v) :: sortJsonPairs rest

end

mutual

/-- The untyped value produced by decoding the canonical CBOR marshalling
of an untyped value: object entries end up in canonical key order. -/
def canonC : Value → Value
  | .arr xs => .arr (canonCList xs)
  | .obj kvs => .obj ((canonCPairs kvs).insertionSort fun x y => keyCanonLE x.1 y.1)
  | v => v

def canonCList : List Value → List Value
  | [] => []
  | x :: xs => canonC x :: canonCList xs

def canonCPairs : List (String × Value) → List (String × Value)
  | [] => []
  | (k, v) :: rest => (k, canonC v) :: canonCPairs rest

end

/-- Boolean pairwise-distinctness of a key list. -/
def distinctKeys : List String → Bool
  | [] => true
  | k :: rest => rest.all (fun k2 => !(k == k2)) && distinctKeys rest

/-- Boolean pairwise canonical ordering of a key list. -/
def pairwiseKeyLE : List String → Bool
  | [] => true
  | k :: rest => rest.all (fun k2 => decide (keyCanonLE k k2)) && pairwiseKeyLE rest

mutual

/-- A marshallable untyped value: integers fit int64 and object keys are
distinct at every level (Go maps cannot hold duplicate keys). -/
def jsonOk : Value → Bool
  | .int n => decide (int64Range n)
  | .arr xs => jsonOkList xs
  | .obj kvs => distinctKeys (kvs.map Prod.fst) && jsonOkPairs kvs
  | _ => true

def jsonOkList : List Value → Bool
  | [] => true
  | x :: xs => jsonOk x && jsonOkList xs

def jsonOkPairs : List (String × Value) → Bool
  | [] => true
  | (_, v) :: rest => jsonOk v && jsonOkPairs rest

end

mutual

/-- A marshallable untyped value whose object entries are already in
canonical key order at every level, so that a CBOR marshal/unmarshal cycle
reproduces it exactly. -/
def cborCanon : Value → Bool
  | .int n => decide (int64Range n)
  | .arr xs => cborCanonList xs
  | .obj kvs =>
      pairwiseKeyLE (kvs.map Prod.fst) && distinctKeys (kvs.map Prod.fst) &&
        cborCanonPairs kvs
  | _ => true

def cborCanonList : List Value → Bool
  | [] => true
  | x :: xs => cborCanon x && cborCanonList xs

def cborCanonPairs : List (String × Value) → Bool
  | [] => true
  | (_, v) :: rest => cborCanon v && cborCanonPairs rest

end

/-- Modelled from the spec: `JSONSchemaProps` (the JSON-schema struct whose
declaration is not under src/) abstracted to the untyped mapping of its
populated fields; its generated JSON codec emits exactly that object, and
the CBOR codec marshals/unmarshals the same object through the direct
serializer. A JSON or CBOR null into the struct is a mismatch, as in the
TypeMeta model. -/
structure JSONSchemaProps where
  fields : List (String × Value)
deriving DecidableEq, Repr

def JSONSchemaProps.marshalJSON (s : JSONSchemaProps) : Value := .obj s.fields

def unmarshalJSONProps : Value → Except DecErr JSONSchemaProps
  | .obj fs => .ok ⟨fs⟩
  | _ => .error .typeMismatch

def JSONSchemaProps.marshalCBOR (s : JSONSchemaProps) : CborItem :=
  valueToCbor (.obj s.fields)

def unmarshalCBORProps : CborItem → Except DecErr JSONSchemaProps
  | .map kvs => (decodeEntries modes.DecodeLax kvs .anyTy []).map fun fs => ⟨fs⟩
  | _ => .error .typeMismatch

/-- JSONSchemaPropsOrBool (part_000): a schema or a boolean. -/
structure JSONSchemaPropsOrBool where
  Allows : Bool
  Schema : Option JSONSchemaProps
deriving DecidableEq, Repr

/-- JSONSchemaPropsOrBool.MarshalJSON (part_000 lines 30-39): a present
schema marshals as the schema, otherwise the Allows boolean. -/
def JSONSchemaPropsOrBool.MarshalJSON (s : JSONSchemaPropsOrBool) : Value :=
  match s.Schema with
  | some sch => sch.marshalJSON
  | none => .bool s.Allows

/-- JSONSchemaPropsOrBool.UnmarshalJSON (lines 41-61): an object is a schema
with Allows forced true, the literals true/false set Allows, anything else
is "boolean or JSON schema expected". (The len(data)==0 case cannot arise
for a parsed document.) -/
def JSONSchemaPropsOrBool.UnmarshalJSON (data : Value) :
    Except DecErr JSONSchemaPropsOrBool :=
  match data with
  | .obj fs => (unmarshalJSONProps (.obj fs)).map fun sch => ⟨true, some sch⟩
  | .bool true => .ok ⟨true, none⟩
  | .bool false => .ok ⟨false, none⟩
  | _ => .error .typeMismatch

/-- JSONSchemaPropsOrBool.MarshalCBOR (lines 63-68). -/
def JSONSchemaPropsOrBool.MarshalCBOR (s : JSONSchemaPropsOrBool) : CborItem :=
  match s.Schema with
  | some sch => sch.marshalCBOR
  | none => .bool s.Allows

/-- JSONSchemaPropsOrBool.UnmarshalCBOR (lines 70-82): first try a boolean
destination, then a schema destination. -/
def JSONSchemaPropsOrBool.UnmarshalCBOR (data : CborItem) :
    Except DecErr JSONSchemaPropsOrBool :=
  match decodeVal modes.DecodeLax data .boolTy with
  | .ok (.bool b) => .ok ⟨b, none⟩
  | _ => (unmarshalCBORProps data).map fun p => ⟨true, some p⟩

/-- JSONSchemaPropsOrStringArray (part_000): a schema or a string array. -/
structure JSONSchemaPropsOrStringArray where
  Schema : Option JSONSchemaProps
  Property : List String
deriving DecidableEq, Repr

/-- JSONSchemaPropsOrStringArray.MarshalJSON (lines 84-92): a non-empty
Property wins, then a present schema, otherwise null. -/
def JSONSchemaPropsOrStringArray.MarshalJSON (s : JSONSchemaPropsOrStringArray) :
    Value :=
  if s.Property.length > 0 then .arr (s.Property.map .str)
  else
    match s.Schema with
    | some sch => sch.marshalJSON
    | none => .null

/-- Elementwise json.Unmarshal into []string: strings pass through, a null
element leaves the zero string, anything else is a mismatch. -/
def strListOfValues : List Value → Except DecErr (List String)
  | [] => .ok []
  | .str s :: rest => (strListOfValues rest).map fun ss => s :: ss
  | .null :: rest => (strListOfValues rest).map fun ss => "" :: ss
  | _ => .error .typeMismatch

/-- JSONSchemaPropsOrStringArray.UnmarshalJSON (lines 94-114): an object
fills Schema, an array fills Property, anything else leaves the zero
value with no error. -/
def JSONSchemaPropsOrStringArray.UnmarshalJSON (data : Value) :
    Except DecErr JSONSchemaPropsOrStringArray :=
  match data with
  | .obj fs => (unmarshalJSONProps (.obj fs)).map fun sch => ⟨some sch, []⟩
  | .arr xs => (strListOfValues xs).map fun ss => ⟨none, ss⟩
  | _ => .ok ⟨none, []⟩

/-- JSONSchemaPropsOrStringArray.MarshalCBOR (lines 116-124). -/
def JSONSchemaPropsOrStringArray.MarshalCBOR (s : JSONSchemaPropsOrStringArray) :
    CborItem :=
  if s.Property.length > 0 then .array (s.Property.map .str)
  else
    match s.Schema with
    | some sch => sch.marshalCBOR
    | none => .null

/-- JSONSchemaPropsOrStringArray.UnmarshalCBOR (lines 126-138): first try a
[]string destination (null yields the nil slice), then a schema. -/
def JSONSchemaPropsOrStringArray.UnmarshalCBOR (data : CborItem) :
    Except DecErr JSONSchemaPropsOrStringArray :=
  match decodeVal modes.DecodeLax data (.arrTy .stringTy) with
  | .ok (.arr vs) =>
      .ok ⟨none, vs.map fun v => match v with | .str s => s | _ => ""⟩
  | .ok _ => .ok ⟨none, []⟩
  | .error _ => (unmarshalCBORProps data).map fun p => ⟨some p, []⟩

/-- JSONSchemaPropsOrArray (part_000): a schema or a schema array. -/
structure JSONSchemaPropsOrArray where
  Schema : Option JSONSchemaProps
  JSONSchemas : List JSONSchemaProps
deriving DecidableEq, Repr

/-- JSONSchemaPropsOrArray.MarshalJSON (lines 140-145): a non-empty
JSONSchemas wins, otherwise the (possibly nil, hence null) schema. -/
def JSONSchemaPropsOrArray.MarshalJSON (s : JSONSchemaPropsOrArray) : Value :=
  if s.JSONSchemas.length > 0 then .arr (s.JSONSchemas.map fun p => .obj p.fields)
  else
    match s.Schema with
    | some sch => sch.marshalJSON
    | none => .null

/-- Elementwise json.Unmarshal into []JSONSchemaProps. -/
def propsListOfValues : List Value → Except DecErr (List JSONSchemaProps)
  | [] => .ok []
  | v :: rest => do
      let p ← unmarshalJSONProps v
      let ps ← propsListOfValues rest
      .ok (p :: ps)

/-- JSONSchemaPropsOrArray.UnmarshalJSON (lines 147-167): an object fills
Schema, an array fills JSONSchemas, anything else leaves the zero value
with no error. -/
def JSONSchemaPropsOrArray.UnmarshalJSON (data : Value) :
    Except DecErr JSONSchemaPropsOrArray :=
  match data with
  | .obj fs => (unmarshalJSONProps (.obj fs)).map fun sch => ⟨some sch, []⟩
  | .arr xs => (propsListOfValues xs).map fun ps => ⟨none, ps⟩
  | _ => .ok ⟨none, []⟩

/-- JSONSchemaPropsOrArray.MarshalCBOR (lines 169-174). -/
def JSONSchemaPropsOrArray.MarshalCBOR (s : JSONSchemaPropsOrArray) : CborItem :=
  if s.JSONSchemas.length > 0 then .array (s.JSONSchemas.map JSONSchemaProps.marshalCBOR)
  else
    match s.Schema with
    | some sch => sch.marshalCBOR
    | none => .null

/-- Elementwise cbor.Unmarshal into []JSONSchemaProps. -/
def propsListOfCbor : List CborItem → Except DecErr (List JSONSchemaProps)
  | [] => .ok []
  | d :: rest => do
      let p ← unmarshalCBORProps d
      let ps ← propsListOfCbor rest
      .ok (p :: ps)

/-- JSONSchemaPropsOrArray.UnmarshalCBOR (lines 176-188): first try a schema
destination, then a []JSONSchemaProps destination (null yields the nil
slice). -/
def JSONSchemaPropsOrArray.UnmarshalCBOR (data : CborItem) :
    Except DecErr JSONSchemaPropsOrArray :=
  match unmarshalCBORProps data with
  | .ok p => .ok ⟨some p, []⟩
  | .error _ =>
      match data with
      | .array xs => (propsListOfCbor xs).map fun ps => ⟨none, ps⟩
      | .null => .ok ⟨none, []⟩
      | _ => .error .typeMismatch

/-- JSON (part_000, the raw-JSON union): raw JSON bytes, absent when empty.
The bytes are abstracted to the parsed document value. -/
structure JSON where
  Raw : Option Value
deriving DecidableEq, Repr

/-- JSON.MarshalJSON (lines 190-196): non-empty raw bytes pass through
verbatim, empty marshals as null. -/
def JSON.MarshalJSON (s : JSON) : Value :=
  match s.Raw with
  | some v => v
  | none => .null

/-- JSON.UnmarshalJSON (lines 198-203): store the bytes unless empty or
exactly the null literal. -/
def JSON.UnmarshalJSON (data : Value) : Except DecErr JSON :=
  match data with
  | .null => .ok ⟨none⟩
  | v => .ok ⟨some v⟩

/-- JSON.MarshalCBOR (lines 205-214): empty raw marshals as null; otherwise
the bytes are parsed as an untyped value and re-marshalled as CBOR. -/
def JSON.MarshalCBOR (s : JSON) : CborItem :=
  match s.Raw with
  | some v => valueToCbor v
  | none => .null

/-- JSON.UnmarshalCBOR (lines 218-232): a null input leaves Raw empty;
otherwise decode to an untyped value and re-marshal it as JSON bytes, whose
object keys come out sorted. -/
def JSON.UnmarshalCBOR (data : CborItem) : Except DecErr JSON :=
  match data with
  | .null => .ok ⟨none⟩
  | _ => (decodeVal modes.DecodeLax data .anyTy).map fun u => ⟨some (sortJson u)⟩

/-- The union invariant for schema-or-bool: a present schema is canonical
and has Allows set (both codecs force Allows true when a schema is
present). -/
def JSONSchemaPropsOrBool.Representable (s : JSONSchemaPropsOrBool) : Bool :=
  match s.Schema with
  | some sch => s.Allows && cborCanon (.obj sch.fields)
  | none => true

/-- The union invariant for schema-or-string-array: at most one arm is
populated and a present schema is canonical. -/
def JSONSchemaPropsOrStringArray.Representable (s : JSONSchemaPropsOrStringArray) :
    Bool :=
  match s.Schema, s.Property with
  | some sch, [] => cborCanon (.obj sch.fields)
  | none, _ => true
  | some _, _ :: _ => false

/-- The union invariant for schema-or-schema-array: at most one arm is
populated and every present schema is canonical. -/
def JSONSchemaPropsOrArray.Representable (s : JSONSchemaPropsOrArray) : Bool :=
  match s.Schema, s.JSONSchemas with
  | some sch, [] => cborCanon (.obj sch.fields)
  | none, ps => ps.all fun p => cborCanon (.obj p.fields)
  | some _, _ :: _ => false

/-- A representable raw-JSON union: the raw bytes, when present, are a
marshallable document other than the null literal (the unmarshallers never
store the null literal). -/
def JSON.Representable (s : JSON) : Bool :=
  match s.Raw with
  | none => true
  | some .null => false
  | some v => jsonOk v

theorem valueToCborPairs_eq_map : ∀ kvs : List (String × Value),
    valueToCborPairs kvs = kvs.map fun p => (p.1, valueToCbor p.2)
  | [] => rfl
  | (k, v) :: rest => by
      simp only [valueToCborPairs, List.map, valueToCborPairs_eq_map rest]

theorem canonCPairs_eq_map : ∀ kvs : List (String × Value),
    canonCPairs kvs = kvs.map fun p => (p.1, canonC p.2)
  | [] => rfl
  | (k, v) :: rest => by
      simp only [canonCPairs, List.map, canonCPairs_eq_map rest]

theorem sortJsonPairs_eq_map : ∀ kvs : List (String × Value),
    sortJsonPairs kvs = kvs.map fun p => (p.1, sortJson p.2)
  | [] => rfl
  | (k, v) :: rest => by
      simp only [sortJsonPairs, List.map, sortJsonPairs_eq_map rest]

theorem distinctKeys_nodup : ∀ ks : List String, distinctKeys ks = true → ks.Nodup
  | [], _ => List.nodup_nil
  | k :: rest, h => by
      simp only [distinctKeys, Bool.and_eq_true, List.all_eq_true] at h
      refine List.nodup_cons.mpr ⟨?_, distinctKeys_nodup rest h.2⟩
      intro hmem
      have := h.1 k hmem
      simp at this

theorem pairwiseKeyLE_pairwise : ∀ ks : List String, pairwiseKeyLE ks = true →
    List.Pairwise keyCanonLE ks
  | [], _ => List.Pairwise.nil
  | k :: rest, h => by
      simp only [pairwiseKeyLE, Bool.and_eq_true, List.all_eq_true] at h
      refine List.pairwise_cons.mpr ⟨fun k2 hk2 => ?_, pairwiseKeyLE_pairwise rest h.2⟩
      have := h.1 k2 hk2
      simpa using this

/-- decodeEntries over entries whose keys are fresh distinct strings and
whose values each decode: the output is the pointwise decode, in order. -/
theorem decodeEntries_map_toCbor : ∀ (qs : List (String × Value)) (seen : List String),
    (∀ p ∈ qs, decodeVal modes.DecodeLax (valueToCbor p.2) .anyTy = .ok (canonC p.2)) →
    (qs.map Prod.fst).Nodup →
    (∀ k ∈ qs.map Prod.fst, k ∉ seen) →
    decodeEntries modes.DecodeLax
        (qs.map fun p => (CborItem.str p.1, valueToCbor p.2)) .anyTy seen
      = .ok (qs.map fun p => (p.1, canonC p.2))
  | [], _, _, _, _ => rfl
  | (k, v) :: rest, seen, hpt, hnd, hseen => by
      have hnd2 : (k :: rest.map Prod.fst).Nodup := hnd
      have hnd' := List.nodup_cons.mp hnd2
      simp only [List.map, decodeEntries]
      rw [if_neg (hseen k (by simp))]
      rw [hpt (k, v) (by simp)]
      rw [decodeEntries_map_toCbor rest (k :: seen)
        (fun p hp => hpt p (List.mem_cons_of_mem _ hp))
        hnd'.2
        (fun k2 hk2 => by
          intro hmem
          rcases List.mem_cons.mp hmem with he | hm
          · exact hnd'.1 (he ▸ hk2)
          · exact hseen k2 (List.mem_cons_of_mem _ hk2) hm)]
      rfl

mutual

/-- Lax decode inverts the item-level canonical CBOR marshalling of a
marshallable untyped value up to canonical ordering of object entries. -/
theorem decodeVal_valueToCbor_canon : ∀ (v : Value), jsonOk v = true →
    decodeVal modes.DecodeLax (valueToCbor v) .anyTy = .ok (canonC v)
  | .int n, h => by
      simp only [jsonOk, decide_eq_true_eq] at h
      simp only [valueToCbor, canonC, decodeVal, if_pos h]
  | .str _, _ => rfl
  | .bool _, _ => rfl
  | .null, _ => rfl
  | .float _, _ => rfl
  | .arr xs, h => by
      simp only [valueToCbor, canonC, decodeVal]
      rw [decodeList_valueToCbor_canon xs (by simpa [jsonOk] using h)]
      rfl
  | .obj kvs, h => by
      simp only [jsonOk, Bool.and_eq_true] at h
      have hnd : (kvs.map Prod.fst).Nodup := distinctKeys_nodup _ h.1
      simp only [valueToCbor, canonC, decodeVal]
      rw [valueToCborPairs_eq_map, canonCPairs_eq_map]
      rw [← List.map_insertionSort (fun x y : String × Value => keyCanonLE x.1 y.1)
        (fun x y : String × CborItem => keyCanonLE x.1 y.1)
        (fun p => (p.1, valueToCbor p.2)) kvs (fun _ _ _ _ => Iff.rfl)]
      rw [← List.map_insertionSort (fun x y : String × Value => keyCanonLE x.1 y.1)
        (fun x y : String × Value => keyCanonLE x.1 y.1)
        (fun p => (p.1, canonC p.2)) kvs (fun _ _ _ _ => Iff.rfl)]
      rw [List.map_map]
      have hcomp : ((fun p : String × CborItem => (CborItem.str p.1, p.2)) ∘
          fun p : String × Value => (p.1, valueToCbor p.2))
          = fun p : String × Value => (CborItem.str p.1, valueToCbor p.2) := rfl
      rw [hcomp]
      have hperm := List.perm_insertionSort
        (fun x y : String × Value => keyCanonLE x.1 y.1) kvs
      rw [decodeEntries_map_toCbor
        (kvs.insertionSort fun x y : String × Value => keyCanonLE x.1 y.1) []
        (fun p hp =>
          decodePairs_valueToCbor_canon kvs h.2 p (hperm.mem_iff.mp hp))
        (((hperm.map Prod.fst).nodup_iff).mpr hnd)
        (fun k _ => List.not_mem_nil k)]
      rfl

theorem decodeList_valueToCbor_canon : ∀ (xs : List Value), jsonOkList xs = true →
    decodeList modes.DecodeLax (valueToCborList xs) .anyTy = .ok (canonCList xs)
  | [], _ => rfl
  | x :: xs, h => by
      simp only [jsonOkList, Bool.and_eq_true] at h
      simp only [valueToCborList, canonCList, decodeList]
      rw [decodeVal_valueToCbor_canon x h.1, decodeList_valueToCbor_canon xs h.2]
      rfl

theorem decodePairs_valueToCbor_canon : ∀ (kvs : List (String × Value)),
    jsonOkPairs kvs = true → ∀ p ∈ kvs,
    decodeVal modes.DecodeLax (valueToCbor p.2) .anyTy = .ok (canonC p.2)
  | [], _, p, hp => absurd hp (List.not_mem_nil p)
  | (k, v) :: rest, h, p, hp => by
      simp only [jsonOkPairs, Bool.and_eq_true] at h
      rcases List.mem_cons.mp hp with he | hm
      · rw [he]
        exact decodeVal_valueToCbor_canon v h.1
      · exact decodePairs_valueToCbor_canon rest h.2 p hm

end

mutual

/-- A canonically-ordered value is untouched by canonical reordering. -/
theorem canonC_eq_self : ∀ v : Value, cborCanon v = true → canonC v = v
  | .int _, _ => rfl
  | .str _, _ => rfl
  | .bool _, _ => rfl
  | .null, _ => rfl
  | .float _, _ => rfl
  | .arr xs, h => by
      simp only [canonC]
      rw [canonCList_eq_self xs (by simpa [cborCanon] using h)]
  | .obj kvs, h => by
      simp only [cborCanon, Bool.and_eq_true] at h
      simp only [canonC]
      rw [canonCPairs_eq_self kvs h.2]
      rw [List.Sorted.insertionSort_eq
        (List.pairwise_map.mp (pairwiseKeyLE_pairwise _ h.1.1))]

theorem canonCList_eq_self : ∀ xs : List Value, cborCanonList xs = true →
    canonCList xs = xs
  | [], _ => rfl
  | x :: xs, h => by
      simp only [cborCanonList, Bool.and_eq_true] at h
      simp only [canonCList]
      rw [canonC_eq_self x h.1, canonCList_eq_self xs h.2]

theorem canonCPairs_eq_self : ∀ kvs : List (String × Value), cborCanonPairs kvs = true →
    canonCPairs kvs = kvs
  | [], _ => rfl
  | (k, v) :: rest, h => by
      simp only [cborCanonPairs, Bool.and_eq_true] at h
      simp only [canonCPairs]
      rw [canonC_eq_self v h.1, canonCPairs_eq_self rest h.2]

end

mutual

/-- Canonically-ordered values are in particular marshallable. -/
theorem cborCanon_jsonOk : ∀ v : Value, cborCanon v = true → jsonOk v = true
  | .int _, h => h
  | .str _, _ => rfl
  | .bool _, _ => rfl
  | .null, _ => rfl
  | .float _, _ => rfl
  | .arr xs, h => cborCanonList_jsonOk xs h
  | .obj kvs, h => by
      simp only [cborCanon, Bool.and_eq_true] at h
      simp only [jsonOk, Bool.and_eq_true]
      exact ⟨h.1.2, cborCanonPairs_jsonOk kvs h.2⟩

theorem cborCanonList_jsonOk : ∀ xs : List Value, cborCanonList xs = true →
    jsonOkList xs = true
  | [], _ => rfl
  | x :: xs, h => by
      simp only [cborCanonList, Bool.and_eq_true] at h
      simp only [jsonOkList, Bool.and_eq_true]
      exact ⟨cborCanon_jsonOk x h.1, cborCanonList_jsonOk xs h.2⟩

theorem cborCanonPairs_jsonOk : ∀ kvs : List (String × Value), cborCanonPairs kvs = true →
    jsonOkPairs kvs = true
  | [], _ => rfl
  | (k, v) :: rest, h => by
      simp only [cborCanonPairs, Bool.and_eq_true] at h
      simp only [jsonOkPairs, Bool.and_eq_true]
      exact ⟨cborCanon_jsonOk v h.1, cborCanonPairs_jsonOk rest h.2⟩

end

/-- Two permuted lists of key-value pairs with the same sorted key order and
distinct keys are equal. -/
theorem sorted_perm_nodupKeys_eq (l₁ l₂ : List (String × Value)) (hperm : l₁.Perm l₂)
    (hs₁ : List.Pairwise (fun x y => strLE x.1 y.1 = true) l₁)
    (hs₂ : List.Pairwise (fun x y => strLE x.1 y.1 = true) l₂)
    (hnd : (l₁.map Prod.fst).Nodup) : l₁ = l₂ := by
  haveI : IsAntisymm (String × Value)
      (fun x y => strLE x.1 y.1 = true ∧ x.1 ≠ y.1) :=
    ⟨fun a b hab hba => absurd (strLE_antisymm hab.1 hba.1) hab.2⟩
  have hnd₂ : (l₂.map Prod.fst).Nodup := ((hperm.map Prod.fst).nodup_iff).mp hnd
  have hs₁' : List.Sorted (fun x y : String × Value => strLE x.1 y.1 = true ∧ x.1 ≠ y.1) l₁ :=
    hs₁.and (List.pairwise_map.mp hnd)
  have hs₂' : List.Sorted (fun x y : String × Value => strLE x.1 y.1 = true ∧ x.1 ≠ y.1) l₂ :=
    hs₂.and (List.pairwise_map.mp hnd₂)
  exact List.eq_of_perm_of_sorted hperm hs₁' hs₂'

mutual

/-- Canonical CBOR reordering is invisible after JSON re-marshalling: the
sorted JSON document of the canonically reordered value is the sorted JSON
document of the original. -/
theorem sortJson_canonC : ∀ v : Value, jsonOk v = true →
    sortJson (canonC v) = sortJson v
  | .int _, _ => rfl
  | .str _, _ => rfl
  | .bool _, _ => rfl
  | .null, _ => rfl
  | .float _, _ => rfl
  | .arr xs, h => by
      simp only [canonC, sortJson]
      rw [sortJsonList_canonC xs (by simpa [jsonOk] using h)]
  | .obj kvs, h => by
      simp only [jsonOk, Bool.and_eq_true] at h
      simp only [canonC, sortJson]
      congr 1
      have hmapeq : (canonCPairs kvs).map (fun p => (p.1, sortJson p.2))
          = kvs.map (fun p => (p.1, sortJson p.2)) := by
        rw [canonCPairs_eq_map, List.map_map]
        apply List.map_congr_left
        intro p hp
        show (p.1, sortJson (canonC p.2)) = (p.1, sortJson p.2)
        rw [sortJsonPairs_canonC_mem kvs h.2 p hp]
      have hM : (((canonCPairs kvs).insertionSort
            fun x y : String × Value => keyCanonLE x.1 y.1).map
            (fun p => (p.1, sortJson p.2))).Perm
          (kvs.map fun p => (p.1, sortJson p.2)) := by
        rw [← hmapeq]
        exact (List.perm_insertionSort _ _).map _
      have hL : ((sortJsonPairs ((canonCPairs kvs).insertionSort
            fun x y : String × Value => keyCanonLE x.1 y.1)).insertionSort
            fun x y : String × Value => strLE x.1 y.1 = true).Perm
          (kvs.map fun p => (p.1, sortJson p.2)) := by
        refine (List.perm_insertionSort _ _).trans ?_
        rw [sortJsonPairs_eq_map]
        exact hM
      have hR : ((sortJsonPairs kvs).insertionSort
            fun x y : String × Value => strLE x.1 y.1 = true).Perm
          (kvs.map fun p => (p.1, sortJson p.2)) := by
        refine (List.perm_insertionSort _ _).trans ?_
        rw [sortJsonPairs_eq_map]
      apply sorted_perm_nodupKeys_eq _ _ (hL.trans hR.symm)
      · exact List.sorted_insertionSort _ _
      · exact List.sorted_insertionSort _ _
      · have hk : ((kvs.map fun p : String × Value => (p.1, sortJson p.2)).map
            Prod.fst) = kvs.map Prod.fst := by
          rw [List.map_map]
          rfl
        exact ((hL.map Prod.fst).nodup_iff).mpr (hk ▸ distinctKeys_nodup _ h.1)

theorem sortJsonList_canonC : ∀ xs : List Value, jsonOkList xs = true →
    sortJsonList (canonCList xs) = sortJsonList xs
  | [], _ => rfl
  | x :: xs, h => by
      simp only [jsonOkList, Bool.and_eq_true] at h
      simp only [canonCList, sortJsonList]
      rw [sortJson_canonC x h.1, sortJsonList_canonC xs h.2]

theorem sortJsonPairs_canonC_mem : ∀ kvs : List (String × Value),
    jsonOkPairs kvs = true → ∀ p ∈ kvs, sortJson (canonC p.2) = sortJson p.2
  | [], _, p, hp => absurd hp (List.not_mem_nil p)
  | (k, v) :: rest, h, p, hp => by
      simp only [jsonOkPairs, Bool.and_eq_true] at h
      rcases List.mem_cons.mp hp with he | hm
      · rw [he]
        exact sortJson_canonC v h.1
      · exact sortJsonPairs_canonC_mem rest h.2 p hm

end

/-- The direct-serializer CBOR round-trip of a canonical schema is the
identity. -/
theorem unmarshalCBORProps_marshalCBOR (sch : JSONSchemaProps)
    (h : cborCanon (.obj sch.fields) = true) :
    unmarshalCBORProps sch.marshalCBOR = .ok sch := by
  have hd := decodeVal_valueToCbor_canon (.obj sch.fields) (cborCanon_jsonOk _ h)
  rw [canonC_eq_self _ h] at hd
  simp only [valueToCbor, decodeVal] at hd
  simp only [JSONSchemaProps.marshalCBOR, valueToCbor, unmarshalCBORProps]
  cases hde : decodeEntries modes.DecodeLax
      (((valueToCborPairs sch.fields).insertionSort fun x y => keyCanonLE x.1 y.1).map
        fun p => (CborItem.str p.1, p.2)) .anyTy [] with
  | error e =>
      rw [hde] at hd
      exact Except.noConfusion hd
  | ok es =>
      rw [hde] at hd
      have h1 : Value.obj es = Value.obj sch.fields := by
        injection hd
      have h2 : es = sch.fields := by
        injection h1
      rw [h2]
      rfl

theorem orBool_json_roundtrip (s : JSONSchemaPropsOrBool) (h : s.Representable = true) :
    JSONSchemaPropsOrBool.UnmarshalJSON s.MarshalJSON = .ok s := by
  match s with
  | ⟨allows, none⟩ => cases allows <;> rfl
  | ⟨allows, some sch⟩ =>
      simp only [JSONSchemaPropsOrBool.Representable, Bool.and_eq_true] at h
      rw [h.1]
      rfl

theorem orBool_cbor_roundtrip (s : JSONSchemaPropsOrBool) (h : s.Representable = true) :
    JSONSchemaPropsOrBool.UnmarshalCBOR s.MarshalCBOR = .ok s := by
  match s with
  | ⟨allows, none⟩ => cases allows <;> rfl
  | ⟨allows, some sch⟩ =>
      simp only [JSONSchemaPropsOrBool.Representable, Bool.and_eq_true] at h
      rw [h.1]
      have hu := unmarshalCBORProps_marshalCBOR sch h.2
      have hbool : decodeVal modes.DecodeLax
          (JSONSchemaPropsOrBool.MarshalCBOR ⟨true, some sch⟩) .boolTy
          = .error .typeMismatch := by
        simp only [JSONSchemaPropsOrBool.MarshalCBOR, JSONSchemaProps.marshalCBOR,
          valueToCbor, decodeVal]
      simp only [JSONSchemaPropsOrBool.UnmarshalCBOR]
      rw [hbool]
      dsimp only
      have hm : JSONSchemaPropsOrBool.MarshalCBOR ⟨true, some sch⟩ = sch.marshalCBOR := rfl
      rw [hm, hu]
      rfl

theorem strListOfValues_map_str : ∀ ss : List String,
    strListOfValues (ss.map .str) = .ok ss
  | [] => rfl
  | s :: ss => by
      simp only [List.map, strListOfValues, strListOfValues_map_str ss]
      rfl

theorem orStringArray_json_roundtrip (s : JSONSchemaPropsOrStringArray)
    (h : s.Representable = true) :
    JSONSchemaPropsOrStringArray.UnmarshalJSON s.MarshalJSON = .ok s := by
  match s with
  | ⟨none, []⟩ => rfl
  | ⟨none, p :: ps⟩ =>
      have hm : JSONSchemaPropsOrStringArray.MarshalJSON ⟨none, p :: ps⟩
          = .arr ((p :: ps).map .str) := by
        simp [JSONSchemaPropsOrStringArray.MarshalJSON]
      rw [hm]
      simp only [JSONSchemaPropsOrStringArray.UnmarshalJSON]
      rw [strListOfValues_map_str]
      rfl
  | ⟨some sch, []⟩ => rfl
  | ⟨some sch, p :: ps⟩ =>
      exact absurd h (by simp [JSONSchemaPropsOrStringArray.Representable])

theorem decodeList_str_map : ∀ ss : List String,
    decodeList modes.DecodeLax (ss.map .str) .stringTy = .ok (ss.map Value.str)
  | [] => rfl
  | s :: ss => by
      simp only [List.map, decodeList, decodeVal, decodeList_str_map ss]
      rfl

theorem extract_str_map : ∀ ss : List String,
    (ss.map Value.str).map (fun v => match v with | .str s => s | _ => "") = ss
  | [] => rfl
  | s :: ss => by
      simp only [List.map, extract_str_map ss]

theorem orStringArray_cbor_roundtrip (s : JSONSchemaPropsOrStringArray)
    (h : s.Representable = true) :
    JSONSchemaPropsOrStringArray.UnmarshalCBOR s.MarshalCBOR = .ok s := by
  match s with
  | ⟨none, []⟩ => rfl
  | ⟨none, p :: ps⟩ =>
      have hm : JSONSchemaPropsOrStringArray.MarshalCBOR ⟨none, p :: ps⟩
          = .array ((p :: ps).map .str) := by
        simp [JSONSchemaPropsOrStringArray.MarshalCBOR]
      rw [hm]
      simp only [JSONSchemaPropsOrStringArray.UnmarshalCBOR, decodeVal]
      rw [decodeList_str_map]
      show (Except.ok (JSONSchemaPropsOrStringArray.mk none (((p :: ps).map Value.str).map
            fun v => match v with | .str s => s | _ => ""))
          : Except DecErr JSONSchemaPropsOrStringArray)
        = Except.ok (JSONSchemaPropsOrStringArray.mk none (p :: ps))
      rw [extract_str_map]
  | ⟨some sch, []⟩ =>
      have hu := unmarshalCBORProps_marshalCBOR sch
        (by simpa [JSONSchemaPropsOrStringArray.Representable] using h)
      have hm : JSONSchemaPropsOrStringArray.MarshalCBOR ⟨some sch, []⟩
          = sch.marshalCBOR := rfl
      rw [hm]
      have harr : decodeVal modes.DecodeLax sch.marshalCBOR (.arrTy .stringTy)
          = .error .typeMismatch := by
        simp only [JSONSchemaProps.marshalCBOR, valueToCbor, decodeVal]
      simp only [JSONSchemaPropsOrStringArray.UnmarshalCBOR]
      rw [harr]
      dsimp only
      rw [hu]
      rfl
  | ⟨some sch, p :: ps⟩ =>
      exact absurd h (by simp [JSONSchemaPropsOrStringArray.Representable])

theorem propsListOfValues_map_obj : ∀ ps : List JSONSchemaProps,
    propsListOfValues (ps.map fun p => .obj p.fields) = .ok ps
  | [] => rfl
  | p :: ps => by
      simp only [List.map, propsListOfValues, unmarshalJSONProps,
        propsListOfValues_map_obj ps]
      rfl

theorem orArray_json_roundtrip (s : JSONSchemaPropsOrArray)
    (h : s.Representable = true) :
    JSONSchemaPropsOrArray.UnmarshalJSON s.MarshalJSON = .ok s := by
  match s with
  | ⟨none, []⟩ => rfl
  | ⟨none, p :: ps⟩ =>
      have hm : JSONSchemaPropsOrArray.MarshalJSON ⟨none, p :: ps⟩
          = .arr ((p :: ps).map fun q => .obj q.fields) := by
        simp [JSONSchemaPropsOrArray.MarshalJSON]
      rw [hm]
      simp only [JSONSchemaPropsOrArray.UnmarshalJSON]
      rw [propsListOfValues_map_obj]
      rfl
  | ⟨some sch, []⟩ => rfl
  | ⟨some sch, p :: ps⟩ =>
      exact absurd h (by simp [JSONSchemaPropsOrArray.Representable])

theorem propsListOfCbor_map_marshal : ∀ ps : List JSONSchemaProps,
    (∀ p ∈ ps, cborCanon (.obj p.fields) = true) →
    propsListOfCbor (ps.map JSONSchemaProps.marshalCBOR) = .ok ps
  | [], _ => rfl
  | p :: ps, h => by
      simp only [List.map, propsListOfCbor]
      rw [unmarshalCBORProps_marshalCBOR p (h p (by simp))]
      rw [propsListOfCbor_map_marshal ps fun q hq => h q (List.mem_cons_of_mem _ hq)]
      rfl

theorem orArray_cbor_roundtrip (s : JSONSchemaPropsOrArray)
    (h : s.Representable = true) :
    JSONSchemaPropsOrArray.UnmarshalCBOR s.MarshalCBOR = .ok s := by
  match s with
  | ⟨none, []⟩ => rfl
  | ⟨none, p :: ps⟩ =>
      have hall : ∀ q ∈ p :: ps, cborCanon (.obj q.fields) = true := by
        simpa [JSONSchemaPropsOrArray.Representable, List.all_eq_true] using h
      have hm : JSONSchemaPropsOrArray.MarshalCBOR ⟨none, p :: ps⟩
          = .array ((p :: ps).map JSONSchemaProps.marshalCBOR) := by
        simp [JSONSchemaPropsOrArray.MarshalCBOR]
      rw [hm]
      simp only [JSONSchemaPropsOrArray.UnmarshalCBOR, unmarshalCBORProps]
      rw [propsListOfCbor_map_marshal (p :: ps) hall]
      rfl
  | ⟨some sch, []⟩ =>
      have hu := unmarshalCBORProps_marshalCBOR sch
        (by simpa [JSONSchemaPropsOrArray.Representable] using h)
      have hm : JSONSchemaPropsOrArray.MarshalCBOR ⟨some sch, []⟩
          = sch.marshalCBOR := rfl
      rw [hm]
      simp only [JSONSchemaPropsOrArray.UnmarshalCBOR]
      rw [hu]
  | ⟨some sch, p :: ps⟩ =>
      exact absurd h (by simp [JSONSchemaPropsOrArray.Representable])

theorem json_json_roundtrip (s : JSON) (h : s.Representable = true) :
    JSON.UnmarshalJSON s.MarshalJSON = .ok s := by
  match s with
  | ⟨none⟩ => rfl
  | ⟨some v⟩ =>
      cases v <;> first | rfl | exact absurd h (by decide)

theorem JSON_unmarshalCBOR_nonnull (data : CborItem) (hd : ¬data = .null) :
    JSON.UnmarshalCBOR data
      = (decodeVal modes.DecodeLax data .anyTy).map fun u => ⟨some (sortJson u)⟩ := by
  cases data <;> first | rfl | exact absurd rfl hd

theorem json_cbor_roundtrip (s : JSON) (h : s.Representable = true) :
    JSON.UnmarshalCBOR s.MarshalCBOR = .ok ⟨s.Raw.map sortJson⟩ := by
  match s with
  | ⟨none⟩ => rfl
  | ⟨some v⟩ =>
      have hnn : ¬v = Value.null := by
        intro he
        rw [he] at h
        exact Bool.noConfusion h
      have hok : jsonOk v = true := by
        cases v <;> first | exact absurd rfl hnn | exact h
      have hvn : ¬valueToCbor v = CborItem.null := by
        cases v <;> first | exact absurd rfl hnn | exact fun hx => CborItem.noConfusion hx
      have hm : JSON.MarshalCBOR ⟨some v⟩ = valueToCbor v := rfl
      rw [hm, JSON_unmarshalCBOR_nonnull _ hvn, decodeVal_valueToCbor_canon v hok]
      simp only [Except.map]
      rw [sortJson_canonC v hok]
      rfl

/-- C6 (corrected): for each of the three JSON-schema unions and every
representable value, the JSON round trip and the CBOR round trip through
the codecs are the identity; for the raw-JSON union the JSON round trip is
the identity but the CBOR round trip reproduces the raw document only up to
re-marshalling with sorted object keys, because UnmarshalCBOR re-marshals
the decoded untyped value rather than restoring the original bytes. -/
theorem C6_union_roundtrips :
    (∀ s : JSONSchemaPropsOrBool, s.Representable = true →
        JSONSchemaPropsOrBool.UnmarshalJSON s.MarshalJSON = .ok s
      ∧ JSONSchemaPropsOrBool.UnmarshalCBOR s.MarshalCBOR = .ok s)
  ∧ (∀ s : JSONSchemaPropsOrStringArray, s.Representable = true →
        JSONSchemaPropsOrStringArray.UnmarshalJSON s.MarshalJSON = .ok s
      ∧ JSONSchemaPropsOrStringArray.UnmarshalCBOR s.MarshalCBOR = .ok s)
  ∧ (∀ s : JSONSchemaPropsOrArray, s.Representable = true →
        JSONSchemaPropsOrArray.UnmarshalJSON s.MarshalJSON = .ok s
      ∧ JSONSchemaPropsOrArray.UnmarshalCBOR s.MarshalCBOR = .ok s)
  ∧ (∀ s : JSON, s.Representable = true →
        JSON.UnmarshalJSON s.MarshalJSON = .ok s
      ∧ JSON.UnmarshalCBOR s.MarshalCBOR = .ok ⟨s.Raw.map sortJson⟩) :=
  ⟨fun s h => ⟨orBool_json_roundtrip s h, orBool_cbor_roundtrip s h⟩,
   fun s h => ⟨orStringArray_json_roundtrip s h, orStringArray_cbor_roundtrip s h⟩,
   fun s h => ⟨orArray_json_roundtrip s h, orArray_cbor_roundtrip s h⟩,
   fun s h => ⟨json_json_roundtrip s h, json_cbor_roundtrip s h⟩⟩

/-- Witness instantiating each clause of the round-trip theorem at a
concrete representable value, including the raw-JSON clause at a document
whose keys are not in sorted order. -/
theorem C6_union_roundtrips_witness :
    JSONSchemaPropsOrBool.UnmarshalCBOR
        (JSONSchemaPropsOrBool.MarshalCBOR ⟨true, some ⟨[("a", .int 1)]⟩⟩)
      = .ok ⟨true, some ⟨[("a", .int 1)]⟩⟩
    ∧ JSONSchemaPropsOrStringArray.UnmarshalCBOR
        (JSONSchemaPropsOrStringArray.MarshalCBOR ⟨none, ["x", "y"]⟩)
      = .ok ⟨none, ["x", "y"]⟩
    ∧ JSONSchemaPropsOrArray.UnmarshalCBOR
        (JSONSchemaPropsOrArray.MarshalCBOR ⟨none, [⟨[("a", .int 1)]⟩]⟩)
      = .ok ⟨none, [⟨[("a", .int 1)]⟩]⟩
    ∧ JSON.UnmarshalCBOR
        (JSON.MarshalCBOR ⟨some (.obj [("b", .int 1), ("a", .int 2)])⟩)
      = .ok ⟨(some (.obj [("b", .int 1), ("a", .int 2)])).map sortJson⟩ :=
  ⟨(C6_union_roundtrips.1 _ (by decide)).2,
   (C6_union_roundtrips.2.1 _ (by decide)).2,
   (C6_union_roundtrips.2.2.1 _ (by decide)).2,
   (C6_union_roundtrips.2.2.2 _ (by decide)).2⟩

/-- The raw-JSON CBOR round trip is not the identity stated by the spec:
the representable document with keys "b","a" comes back with its keys
re-sorted to "a","b", so unmarshalling the output of MarshalCBOR does not
yield a value equal to the original. -/
theorem C6_rawjson_cbor_not_identity :
    JSON.Representable ⟨some (.obj [("b", .int 1), ("a", .int 2)])⟩ = true
    ∧ JSON.UnmarshalCBOR
        (JSON.MarshalCBOR ⟨some (.obj [("b", .int 1), ("a", .int 2)])⟩)
      = .ok ⟨some (.obj [("a", .int 2), ("b", .int 1)])⟩
    ∧ (Except.ok (JSON.mk (some (.obj [("a", .int 2), ("b", .int 1)])))
        : Except DecErr JSON)
      ≠ .ok ⟨some (.obj [("b", .int 1), ("a", .int 2)])⟩ := by
  decide
